import Mathlib

/-!
Shallow embedding of the brank-backend metrics pipeline
(`src/services/*.py`, `src/utils/*.py`, `src/llm_clients/*.py`)
and proofs about the behaviour its specification claims.

Machine reals of the source are modelled by `Rat`; Python's `round`
(banker's rounding on the ideal value) is modelled by `pyRound`.  All
concrete inputs evaluated below stay away from binary-float artefacts,
so the rational model agrees with CPython on them.
-/

namespace Brank

/-! ## Python `round` (half-to-even), `src` uses `round(x, d)` -/

/-- Python `round(q)` for a rational `q`: nearest integer, ties to even. -/
def pyRoundInt (q : Rat) : Int :=
  if q - ((⌊q⌋ : Int) : Rat) < 1/2 then ⌊q⌋
  else if 1/2 < q - ((⌊q⌋ : Int) : Rat) then ⌊q⌋ + 1
  else if ⌊q⌋ % 2 = 0 then ⌊q⌋ else ⌊q⌋ + 1

/-- Python `round(q, d)`: round to `d` decimal places, ties to even. -/
def pyRound (d : Nat) (q : Rat) : Rat :=
  ((pyRoundInt (q * (10 : Rat) ^ d) : Int) : Rat) / (10 : Rat) ^ d

/-! ## `src/utils/text_utils.py` — `normalize_brand_name` -/

/-- ASCII whitespace as recognised by Python `str.split()` / `str.strip()`
(the records handled here contain only ASCII whitespace). -/
def pyIsSpaceChar (c : Char) : Bool :=
  c = ' ' || c = '\t' || c = '\n' || c = '\r' || c = Char.ofNat 11 || c = Char.ofNat 12

/-- Python `str.lower()` on one character (ASCII range, as in the data handled). -/
def pyLowerChar (c : Char) : Char :=
  if 'A' ≤ c && c ≤ 'Z' then Char.ofNat (c.toNat + 32) else c

/-- Characters removed by `re.sub(r"[™®©]", "", ...)`. -/
def isTrademarkChar (c : Char) : Bool := c = '™' || c = '®' || c = '©'

/-- Python `s.split()`: words of a string, splitting on runs of whitespace. -/
def pyWords (s : List Char) : List (List Char) :=
  (s.splitOnP pyIsSpaceChar).filter (· ≠ [])

/-- Python `" ".join(ws)`. -/
def joinWithSpace (ws : List (List Char)) : List Char :=
  List.intercalate [' '] ws

/-- Python `s.rstrip(bad)`. -/
def rstripSet (bad : List Char) (s : List Char) : List Char :=
  (s.reverse.dropWhile (· ∈ bad)).reverse

/-- Python `s.strip()` (whitespace). -/
def stripWs (s : List Char) : List Char :=
  ((s.dropWhile pyIsSpaceChar).reverse.dropWhile pyIsSpaceChar).reverse

/-- Body of `normalize_brand_name`: lowercase, drop ™®©, collapse whitespace,
strip trailing `.,;:!?`, strip outer whitespace. -/
def normalizeBrandChars (s : List Char) : List Char :=
  stripWs (rstripSet ".,;:!?".data (joinWithSpace (pyWords
    ((s.map pyLowerChar).filter (fun c => !isTrademarkChar c)))))

/-- `normalize_brand_name` (src/utils/text_utils.py). -/
def normalize_brand_name (b : String) : String := ⟨normalizeBrandChars b.data⟩

/-! ## `src/utils/url_utils.py` — `extract_domain` -/

/-- `urllib.parse` scheme characters (letters, digits, `+`, `-`, `.`). -/
def isSchemeChar (c : Char) : Bool := c.isAlphanum || c = '+' || c = '-' || c = '.'

/-- The text before the first `:` of a URL (the scheme candidate). -/
def schemeCandidate (s : List Char) : List Char := s.takeWhile (· ≠ ':')

/-- The scheme-splitting step of `urllib.parse.urlsplit`: if the text before the
first `:` is a nonempty valid scheme starting with a letter, return it
(lowered) and the remainder after the colon; otherwise no scheme. -/
def splitUrlScheme (s : List Char) : List Char × List Char :=
  if (schemeCandidate s).length < s.length ∧ schemeCandidate s ≠ [] ∧
      ((schemeCandidate s).headD ' ').isAlpha ∧ (schemeCandidate s).all isSchemeChar then
    ((schemeCandidate s).map pyLowerChar, s.drop ((schemeCandidate s).length + 1))
  else ([], s)

/-- The netloc step of `urllib.parse.urlsplit`: present only after a leading
`//`, running up to the first `/`, `?` or `#`. -/
def urlNetloc (rest : List Char) : List Char :=
  if rest.take 2 = ['/', '/'] then
    (rest.drop 2).takeWhile (fun c => !(c = '/' || c = '?' || c = '#'))
  else []

/-- The `www.`-stripping step of `extract_domain`. -/
def stripWWW (netloc : List Char) : List Char :=
  if "www.".data.isPrefixOf netloc then netloc.drop 4 else netloc

/-- Body of `extract_domain`: parse, strip `www.`, re-attach the scheme
(defaulting to `https`). -/
def extractDomainChars (url : List Char) : List Char :=
  if (splitUrlScheme url).1 ≠ [] then
    (splitUrlScheme url).1 ++ "://".data ++ stripWWW (urlNetloc (splitUrlScheme url).2)
  else "https://".data ++ stripWWW (urlNetloc (splitUrlScheme url).2)

/-- `extract_domain` (src/utils/url_utils.py): keeps the scheme, strips
`www.`, path and query. -/
def extract_domain (url : String) : String := ⟨extractDomainChars url.data⟩

/-! ## `src/db/models.py` — the slice of `Response` the calculator reads -/

/-- One stored response record: the answer text, the ordered brand-mention
list, and the citation URL list. -/
structure Response where
  answer : String
  brands_list : List String
  citation_list : List String
deriving DecidableEq, Repr

/-! ## `src/services/metrics_calculator.py` — `calculate_mention_rate` -/

/-- The `mentions` counter of `calculate_mention_rate`: number of responses
whose normalized brand list contains the normalized brand. -/
def mentionCount (brand_name : String) (responses : List Response) : Nat :=
  responses.countP
    (fun r => (r.brands_list.map normalize_brand_name).contains (normalize_brand_name brand_name))

/-- `calculate_mention_rate`: fraction of responses whose normalized brand
list contains the normalized brand, rounded to 3 decimals; `0.0` with no
responses. -/
def calculate_mention_rate (brand_name : String) (responses : List Response) : Rat :=
  pyRound 3 (if responses.isEmpty then 0
    else (mentionCount brand_name responses : Rat) / (responses.length : Rat))

/-! ## `calculate_brand_rank` -/

/-- The list of 1-based positions of the brand in each response where it
appears (responses without the brand contribute nothing). -/
def brandRanks (brand_name : String) (responses : List Response) : List Nat :=
  responses.filterMap (fun r =>
    if (r.brands_list.map normalize_brand_name).contains (normalize_brand_name brand_name) then
      some ((r.brands_list.map normalize_brand_name).indexOf (normalize_brand_name brand_name) + 1)
    else none)

/-- `calculate_brand_rank`: average 1-based rank over the responses where the
brand appears, rounded to 2 decimals; `None` if it never appears. -/
def calculate_brand_rank (brand_name : String) (responses : List Response) : Option Rat :=
  if (brandRanks brand_name responses).isEmpty then none
  else some (pyRound 2 (((brandRanks brand_name responses).map (fun (n : Nat) => (n : Rat))).sum /
    ((brandRanks brand_name responses).length : Rat)))

/-! ## `calculate_citations_list` -/

/-- The set of normalized citation domains of one record
(`domains_in_response` in the source): URLs mapped through `extract_domain`
and deduplicated.  Python iterates a hash set in unspecified order; the
order of this list is irrelevant to everything proved below. -/
def responseDomains (r : Response) : List String :=
  (r.citation_list.map extract_domain).dedup

/-- `Counter` update for one key: bump an existing entry, else append a new
entry with count 1 (dict insertion order preserved). -/
def counterAdd (c : List (String × Nat)) (k : String) : List (String × Nat) :=
  if c.any (fun p => p.1 = k) then
    c.map (fun p => if p.1 = k then (p.1, p.2 + 1) else p)
  else c ++ [(k, 1)]

/-- `Counter.update` with an iterable of keys. -/
def counterUpdate (c : List (String × Nat)) (ks : List String) : List (String × Nat) :=
  ks.foldl counterAdd c

/-- `domain_counter` after the response loop: each record contributes each of
its domains exactly once. -/
def domainCounter (responses : List Response) : List (String × Nat) :=
  responses.foldl (fun c r => counterUpdate c (responseDomains r)) []

/-- The count a `Counter` association list holds for a key (0 when absent). -/
def lookupCount (c : List (String × Nat)) (k : String) : Nat := (c.lookup k).getD 0

/-- Number of records whose (deduplicated) domain set contains `k` — what the
domain counter is meant to hold per key. -/
def countDomain (responses : List Response) (k : String) : Nat :=
  responses.countP (fun r => (responseDomains r).contains k)

/-- One entry of the top-domains table: `{"url": domain, "percentage": pct}`. -/
structure Citation where
  url : String
  percentage : Rat
deriving DecidableEq, Repr

/-- Working entry during sorting: domain, raw count, rounded percentage. -/
structure CiteEntry where
  url : String
  cnt : Nat
  pct : Rat
deriving DecidableEq, Repr

/-- Stable insertion: place `x` after every element `y` with `le y x`. -/
def insertLe (le : α → α → Bool) (x : α) : List α → List α
  | [] => [x]
  | y :: ys => if le y x then y :: insertLe le x ys else x :: y :: ys

/-- Stable sort (Python `list.sort` on a total preorder key). -/
def stableSort (le : α → α → Bool) (l : List α) : List α :=
  l.foldl (fun s x => insertLe le x s) []

/-- Ascending order on the Python sort key `(-percentage, -count)`:
descending percentage, then descending raw count. -/
def citeEntryLE (a b : CiteEntry) : Bool :=
  if a.pct = b.pct then b.cnt ≤ a.cnt else b.pct < a.pct

/-- The `citations` comprehension: one working entry per counter key, with
its percentage of the record total. -/
def citeEntries (responses : List Response) : List CiteEntry :=
  (domainCounter responses).map (fun p =>
    CiteEntry.mk p.1 p.2 (pyRound 1 ((p.2 : Rat) / (responses.length : Rat) * 100)))

/-- `calculate_citations_list`: per-record deduplicated domain counts as
percentages of the record total, sorted descending by percentage then raw
count, top 5. -/
def calculate_citations_list (responses : List Response) : List Citation :=
  ((stableSort citeEntryLE (citeEntries responses)).take 5).map
    (fun e => Citation.mk e.url e.pct)

/-! ## `calculate_brand_domain_citation_rate` -/

/-- The `citations_with_brand` counter of
`calculate_brand_domain_citation_rate`: responses with at least one citation
whose domain equals the brand domain `extract_domain("https://" + website)`
(the `break` in the source counts each response once). -/
def brandCitingCount (website : String) (responses : List Response) : Nat :=
  responses.countP (fun r => r.citation_list.any
    (fun u => extract_domain u = extract_domain ("https://" ++ website)))

/-- `calculate_brand_domain_citation_rate`: fraction of responses citing the
brand's own domain (each response counted once), rounded to 3 decimals. -/
def calculate_brand_domain_citation_rate (website : String) (responses : List Response) : Rat :=
  pyRound 3 (if responses.isEmpty then 0
    else (brandCitingCount website responses : Rat) / (responses.length : Rat))

/-! ## `aggregate_metrics_across_llms` -/

/-- The value part of one LLM's metrics dict.  Every field is optional
because `aggregate_metrics_across_llms` reads the dict with `.get`: a key may
be absent (e.g. `brandDomainCitationRate` on the cached path) or hold `None`
(`brandRank`). -/
structure MetricValues where
  brandRank : Option Rat
  citationsList : Option (List Citation)
  mentionRate : Option Rat
  sentimentScore : Option Rat
  brandDomainCitationRate : Option Rat
deriving DecidableEq, Repr

/-- One LLM's entry in `per_llm_metrics`: either a failure marker
(`{"error": ..., "status": "failed"}`) or a metrics dict. -/
inductive LLMMetrics
  | failed (error : String)
  | ok (m : MetricValues)
deriving DecidableEq, Repr

/-- Whether an entry is a metrics dict (no `"error"` key). -/
def LLMMetrics.isOk : LLMMetrics → Bool
  | .failed _ => false
  | .ok _ => true

/-- `successful_llms`: the entries with no `"error"` key. -/
def successfulLLMs (per : List (String × LLMMetrics)) : List (String × LLMMetrics) :=
  per.filter (fun p => p.2.isOk)

/-- The aggregated structure returned on the non-failure path. -/
structure Aggregated where
  averageMentionRate : Rat
  citations : Rat
  averageSentiment : Rat
  averageRanking : Option Int
  mentionRateByLLM : List (String × Rat)
  citationsByLLM : List (String × Rat)
  citationOverview : List (String × List Citation)
  topBrands : List (String × Rat)
  currentBrandRank : Option Rat
  rankByLLMs : List (String × Rat)
deriving DecidableEq, Repr

/-- Result of aggregation: either the all-failed error object or metrics. -/
inductive AggResult
  | allFailed
  | ok (a : Aggregated)
deriving DecidableEq, Repr

/-- The `mention_rates` list collected by the aggregation loop: the
`mentionRate` values of the successful entries that carry one.  (Collecting
over all entries is the same thing, since failed entries carry none; the
loop in the source reads them off the successful branch.) -/
def mentionRatesOf (per : List (String × LLMMetrics)) : List Rat :=
  per.filterMap (fun p => match p.2 with | .ok m => m.mentionRate | .failed _ => none)

/-- The `citation_rates` list collected by the aggregation loop. -/
def citationRatesOf (per : List (String × LLMMetrics)) : List Rat :=
  per.filterMap
    (fun p => match p.2 with | .ok m => m.brandDomainCitationRate | .failed _ => none)

/-- The `sentiment_scores` list collected by the aggregation loop. -/
def sentimentScoresOf (per : List (String × LLMMetrics)) : List Rat :=
  per.filterMap (fun p => match p.2 with | .ok m => m.sentimentScore | .failed _ => none)

/-- The `brand_ranks` list collected by the aggregation loop. -/
def brandRanksOf (per : List (String × LLMMetrics)) : List Rat :=
  per.filterMap (fun p => match p.2 with | .ok m => m.brandRank | .failed _ => none)

/-- `aggregate_metrics_across_llms` (src/services/metrics_calculator.py). -/
def aggregate_metrics_across_llms (per : List (String × LLMMetrics))
    (all_brands_ranking : List (String × Rat)) (brand_name : String) : AggResult :=
  if successfulLLMs per = [] then .allFailed else
  .ok
  { averageMentionRate :=
      if mentionRatesOf per = [] then 0
      else pyRound 3 ((mentionRatesOf per).sum / ((mentionRatesOf per).length : Rat))
    citations :=
      if citationRatesOf per = [] then 0
      else pyRound 3 ((citationRatesOf per).sum / ((citationRatesOf per).length : Rat))
    averageSentiment :=
      if sentimentScoresOf per = [] then 50
      else pyRound 1 ((sentimentScoresOf per).sum / ((sentimentScoresOf per).length : Rat))
    averageRanking :=
      if brandRanksOf per = [] then none
      else some ⌈(brandRanksOf per).sum / ((brandRanksOf per).length : Rat)⌉
    mentionRateByLLM := per.map
      (fun p => (p.1, match p.2 with | .failed _ => 0 | .ok m => m.mentionRate.getD 0))
    citationsByLLM := per.map
      (fun p => (p.1, match p.2 with | .failed _ => 0 | .ok m => m.brandDomainCitationRate.getD 0))
    citationOverview := per.map
      (fun p => (p.1, match p.2 with | .failed _ => [] | .ok m => m.citationsList.getD []))
    topBrands := all_brands_ranking.take 7
    currentBrandRank := all_brands_ranking.lookup (normalize_brand_name brand_name)
    rankByLLMs := per.filterMap
      (fun p => match p.2 with
        | .ok m => m.brandRank.map (fun r => (p.1, r))
        | .failed _ => none) }

/-! ## `src/services/cache_service.py` — `check_cache` -/

/-- Python-level exceptions surfaced by the embedded services. -/
inductive PyErr
  | typeError (msg : String)
  | valueError (msg : String)
deriving DecidableEq, Repr

/-- Python `min` over a list: raises `ValueError` on an empty sequence. -/
def pyMin : List Int → Except PyErr Int
  | [] => .error (.valueError "min() arg is an empty sequence")
  | x :: xs => .ok (xs.foldl min x)

/-- One stored `ProviderMetric` row as `MetricsRepository.get_by_brand`
returns it. -/
structure StoredMetric where
  llm_name : String
  brand_rank : Option Rat
  citations_list : List Citation
  mention_rate : Rat
  sentiment_score : Rat
  updated_at : Int
deriving DecidableEq, Repr

/-- The per-LLM dict `check_cache` builds from one stored row (four keys;
`brandDomainCitationRate` is absent on this path). -/
def cacheEntry (m : StoredMetric) : MetricValues :=
  { brandRank := m.brand_rank
    citationsList := some m.citations_list
    mentionRate := some m.mention_rate
    sentimentScore := some m.sentiment_score
    brandDomainCitationRate := none }

/-- A cache hit: the per-LLM metrics plus the oldest update timestamp. -/
structure CacheHit where
  metrics : List (String × MetricValues)
  computed_at : Int
deriving DecidableEq, Repr

/-- `check_cache` body over the rows the metrics store returns for the
brand: a hit only when every active LLM has a stored metric, with the oldest
`updated_at` as `computed_at`; `None` (a miss) otherwise. -/
def check_cache (metrics : List StoredMetric) (active_llm_names : List String) :
    Except PyErr (Option CacheHit) :=
  let llm_names := metrics.map (·.llm_name)
  if active_llm_names.all (fun n => llm_names.contains n) then
    match pyMin (metrics.map (·.updated_at)) with
    | .error e => .error e
    | .ok oldest => .ok (some ⟨metrics.map (fun m => (m.llm_name, cacheEntry m)), oldest⟩)
  else .ok none

/-! ## `src/services/prompt_generation_service.py` -/

/-- One line of the generation response, as `generate_prompts` parses it:
strip; drop empty lines; a line starting with a digit is kept from its first
character outside `"0123456789. "` (dropped entirely when no such character
exists); any other nonempty line is kept whole. -/
def parseNumberedLine (line : List Char) : Option (List Char) :=
  let l := stripWs line
  if l = [] then none
  else if (l.headD ' ').isDigit then
    let rest := l.dropWhile (fun c => c.isDigit || c = '.' || c = ' ')
    if rest = [] then none else some (stripWs rest)
  else some l

/-- The prompt-line parser of `generate_prompts` applied to the raw
generation response (`response.strip().split("\n")` then per-line parsing). -/
def parseGeneratedPrompts (text : String) : List String :=
  (((stripWs text.data).splitOnP (fun c => c = '\n')).filterMap parseNumberedLine).map
    (fun l => ⟨l⟩)

/-- `generate_prompts`: parse the designated provider's response and truncate
to the requested count (`prompts[:count]`).  The LLM exchange itself is
abstracted into the response text argument. -/
def generate_prompts (count : Nat) (llmResponseText : String) : List String :=
  (parseGeneratedPrompts llmResponseText).take count

/-- `get_or_generate_prompts`: returns the resolved prompt list together with
the stored prompt list after the call (`PromptRepository.create_bulk` on the
generation path).  `sample` stands for `random.sample`. -/
def get_or_generate_prompts (stored : List String) (count : Nat)
    (sample : List String → Nat → List String) (llmResponseText : String) :
    List String × List String :=
  if stored.length = count then (stored, stored)
  else if count < stored.length then (sample stored count, stored)
  else
    let new := generate_prompts (count - stored.length) llmResponseText
    (stored ++ new, stored ++ new)

/-! ## `src/utils/retry.py` and the provider clients -/

/-- The Python exception classes involved in the provider clients:
the taxonomy of `src/llm_clients/base.py` plus the backend SDK classes the
clients catch. -/
inductive ExcClass
  | exceptionCls
  | llmError
  | llmTimeoutError
  | llmAPIError
  | llmRateLimitError
  | openAIError
  | apiErrorOpenAI
  | apiConnectionError
  | apiTimeoutError
  | apiStatusError
  | rateLimitError
  | googleAPIError
  | googleAPICallError
  | deadlineExceeded
  | resourceExhausted
deriving DecidableEq, Repr

/-- Proper ancestors of each class.  `LLM*` classes subclass only
`LLMError → Exception` (src/llm_clients/base.py); the OpenAI classes
descend `APITimeoutError < APIConnectionError < APIError < OpenAIError` and
`RateLimitError < APIStatusError < APIError < OpenAIError`; the Google
classes descend `DeadlineExceeded, ResourceExhausted < GoogleAPICallError <
GoogleAPIError`. -/
def ancestorsOf : ExcClass → List ExcClass
  | .exceptionCls => []
  | .llmError => [.exceptionCls]
  | .llmTimeoutError => [.llmError, .exceptionCls]
  | .llmAPIError => [.llmError, .exceptionCls]
  | .llmRateLimitError => [.llmError, .exceptionCls]
  | .openAIError => [.exceptionCls]
  | .apiErrorOpenAI => [.openAIError, .exceptionCls]
  | .apiConnectionError => [.apiErrorOpenAI, .openAIError, .exceptionCls]
  | .apiTimeoutError => [.apiConnectionError, .apiErrorOpenAI, .openAIError, .exceptionCls]
  | .apiStatusError => [.apiErrorOpenAI, .openAIError, .exceptionCls]
  | .rateLimitError => [.apiStatusError, .apiErrorOpenAI, .openAIError, .exceptionCls]
  | .googleAPIError => [.exceptionCls]
  | .googleAPICallError => [.googleAPIError, .exceptionCls]
  | .deadlineExceeded => [.googleAPICallError, .googleAPIError, .exceptionCls]
  | .resourceExhausted => [.googleAPICallError, .googleAPIError, .exceptionCls]

/-- Python `isinstance`-style subclass test. -/
def isSubclass (c d : ExcClass) : Bool := c = d || (ancestorsOf c).contains d

/-- A raised Python exception: its class and message. -/
structure PyExc where
  cls : ExcClass
  msg : String
deriving DecidableEq, Repr

/-- Behaviour of one underlying SDK call attempt. -/
inductive ApiOutcome
  | success (answer : String)
  | raises (e : PyExc)
deriving DecidableEq, Repr

/-- Body of `ChatGPTClient.query` (src/llm_clients/chatgpt.py): the
`except` chain, in source order, mapping the SDK's exceptions onto the LLM
error taxonomy. -/
def chatgptQueryBody (o : ApiOutcome) : Except PyExc String :=
  match o with
  | .success a => .ok a
  | .raises e =>
    if isSubclass e.cls .rateLimitError then
      .error ⟨.llmRateLimitError, "ChatGPT rate limit exceeded"⟩
    else if isSubclass e.cls .apiTimeoutError then
      .error ⟨.llmTimeoutError, "ChatGPT request timed out"⟩
    else if isSubclass e.cls .openAIError then
      .error ⟨.llmAPIError, "ChatGPT API error"⟩
    else .error ⟨.llmError, "Unexpected error"⟩

/-- Body of `GeminiClient.query` (src/llm_clients/gemini.py). -/
def geminiQueryBody (o : ApiOutcome) : Except PyExc String :=
  match o with
  | .success a => .ok a
  | .raises e =>
    if isSubclass e.cls .resourceExhausted then
      .error ⟨.llmRateLimitError, "Gemini rate limit exceeded"⟩
    else if isSubclass e.cls .deadlineExceeded then
      .error ⟨.llmTimeoutError, "Gemini request timed out"⟩
    else if isSubclass e.cls .googleAPIError then
      .error ⟨.llmAPIError, "Gemini API error"⟩
    else .error ⟨.llmError, "Unexpected error"⟩

/-- The tenacity loop of `retry_with_backoff`, parameterised by the retry
predicate (`retry_if_exception_type`) and the attempts remaining after the
current one (`stop_after_attempt`); `reraise=True` re-raises the final
exception unchanged.  Returns the outcome and the number of attempts made. -/
def tenacityGo (retryOn : PyExc → Bool) (body : Nat → Except PyExc String) :
    Nat → Nat → Except PyExc String × Nat
  | attempt, 0 => (body attempt, attempt)
  | attempt, remaining + 1 =>
    match body attempt with
    | .ok a => (.ok a, attempt)
    | .error e =>
      if retryOn e then tenacityGo retryOn body (attempt + 1) remaining
      else (.error e, attempt)

/-- `retry_with_backoff(max_attempts, ...)` applied to a body: run up to
`maxAttempts` attempts, retrying exactly the exceptions `retryOn` accepts. -/
def tenacityRun (retryOn : PyExc → Bool) (maxAttempts : Nat)
    (body : Nat → Except PyExc String) : Except PyExc String × Nat :=
  tenacityGo retryOn body 1 (maxAttempts - 1)

/-- The decorator argument on `ChatGPTClient.query`:
`exceptions=(APITimeoutError,)`. -/
def retryOnAPITimeout (e : PyExc) : Bool := isSubclass e.cls .apiTimeoutError

/-- The decorator argument on `GeminiClient.query`:
`exceptions=(google_exceptions.DeadlineExceeded,)`. -/
def retryOnDeadlineExceeded (e : PyExc) : Bool := isSubclass e.cls .deadlineExceeded

/-- Decorated `ChatGPTClient.query`: the retry wrapper around the body, with
`max_attempts=3`.  `attempts i` is what the SDK call would do on attempt `i`. -/
def chatgptQuery (attempts : Nat → ApiOutcome) : Except PyExc String × Nat :=
  tenacityRun retryOnAPITimeout 3 (fun i => chatgptQueryBody (attempts i))

/-- Decorated `GeminiClient.query` with `max_attempts=3`. -/
def geminiQuery (attempts : Nat → ApiOutcome) : Except PyExc String × Nat :=
  tenacityRun retryOnDeadlineExceeded 3 (fun i => geminiQueryBody (attempts i))

/-! ## `src/services/metric_service.py` — `get_or_compute_metrics` -/

/-- Parameters of `check_cache` (src/services/cache_service.py, all required,
no defaults). -/
def check_cache_param_names : List String :=
  ["db_session", "brand_id", "active_llm_names", "hours", "logger"]

/-- Positional arguments of the call
`check_cache(db_session, brand.brand_id, 24, logger)`
at src/services/metric_service.py line 92. -/
def check_cache_call_args : List String :=
  ["db_session", "brand.brand_id", "24", "logger"]

/-- Parameters of `process_responses` (src/services/response_processor.py,
all required, no defaults). -/
def process_responses_param_names : List String :=
  ["db_session", "brand_id", "llm_responses", "llm_clients", "logger"]

/-- Positional arguments of the call
`process_responses(db_session, brand.brand_id, llm_responses, logger)`
at src/services/metric_service.py line 167. -/
def process_responses_call_args : List String :=
  ["db_session", "brand.brand_id", "llm_responses", "logger"]

/-- CPython positional binding for a function all of whose parameters are
required: a call with a different argument count raises `TypeError` before
the body runs. -/
def bindPositional (params args : List String) : Except PyErr (List (String × String)) :=
  if args.length = params.length then .ok (params.zip args)
  else .error (.typeError "positional argument count does not match required parameters")

/-- Environment of one `get_or_compute_metrics` call: the store contents and
collaborator behaviours the pipeline would consume. -/
structure PipelineEnv where
  storedMetrics : List StoredMetric
  activeLLMs : List String
  storedPrompts : List String
  sample : List String → Nat → List String
  genText : String
  perLLMMetrics : List (String × LLMMetrics)
  allBrandsRanking : List (String × Rat)
  brandName : String
  computedAt : Int

/-- The shape of the dictionary `get_or_compute_metrics` promises to return. -/
structure MetricOutput where
  cached : Bool
  agg : AggResult
  computed_at : Int

/-- `get_or_compute_metrics` (src/services/metric_service.py), with the
network and persistence effects abstracted into `env`: cache check, then on
a miss prompt resolution, querying, response processing, metric calculation
and aggregation.  The two repository-call sites keep their source arities,
bound by `bindPositional`. -/
def get_or_compute_metrics (env : PipelineEnv) : Except PyErr MetricOutput := do
  let _ ← bindPositional check_cache_param_names check_cache_call_args
  let cached ← check_cache env.storedMetrics env.activeLLMs
  match cached with
  | some hit =>
    pure { cached := true
           agg := aggregate_metrics_across_llms
             (hit.metrics.map (fun p => (p.1, LLMMetrics.ok p.2)))
             env.allBrandsRanking env.brandName
           computed_at := hit.computed_at }
  | none =>
    let _prompts := (get_or_generate_prompts env.storedPrompts 10 env.sample env.genText).1
    let _ ← bindPositional process_responses_param_names process_responses_call_args
    pure { cached := false
           agg := aggregate_metrics_across_llms env.perLLMMetrics
             env.allBrandsRanking env.brandName
           computed_at := env.computedAt }

/-- Projection of the averaged figures of an aggregation result. -/
def aggAverages : AggResult → Option (Rat × Rat × Rat × Option Int)
  | .allFailed => none
  | .ok a => some (a.averageMentionRate, a.citations, a.averageSentiment, a.averageRanking)

/-! ## Concrete inputs used by the claims -/

/-- The largest mention-list length over a record set
(`maxMentionsInAnyRecord`). -/
def maxMentions (responses : List Response) : Nat :=
  (responses.map (·.brands_list.length)).foldr max 0

/-- The spec's end-to-end example: three records with brand-order lists
`[Samsung, Apple, Google]`, `[Samsung, Google]`, `[Apple, Google]`. -/
def exampleResponses : List Response :=
  [⟨"", ["Samsung", "Apple", "Google"], []⟩,
   ⟨"", ["Samsung", "Google"], []⟩,
   ⟨"", ["Apple", "Google"], []⟩]

/-- The spec's aggregation example: providers A (mentionRate 0.8),
B (mentionRate 0.6) and C failed. -/
def examplePerLLM : List (String × LLMMetrics) :=
  [("A", .ok ⟨none, none, some (4/5), none, none⟩),
   ("B", .ok ⟨none, none, some (3/5), none, none⟩),
   ("C", .failed "boom")]

/-- Two records citing the same host under different schemes. -/
def citeExample : List Response :=
  [⟨"", [], ["http://example.com/a"]⟩, ⟨"", [], ["https://example.com/b"]⟩]

/-- 2001 records, exactly one of which mentions brand `b`. -/
def manyResponses : List Response :=
  List.replicate 2000 ⟨"", [], []⟩ ++ [⟨"", ["b"], []⟩]

/-! # Theorems -/

theorem pyRoundInt_le {q : Rat} {m : Int} (h : q ≤ (m : Rat)) : pyRoundInt q ≤ m := by
  unfold pyRoundInt
  have hfl : ⌊q⌋ ≤ m := Int.floor_le_floor (α := Rat) h |>.trans_eq (Int.floor_intCast m)
  by_cases h1 : q - ((⌊q⌋ : Int) : Rat) < 1/2
  · simp only [h1, if_true]
    exact hfl
  · have hlt : ⌊q⌋ < m := by
      rcases lt_or_eq_of_le hfl with h' | h'
      · exact h'
      · exfalso
        apply h1
        have : q - ((⌊q⌋ : Int) : Rat) ≤ 0 := by
          rw [h']
          simpa using sub_nonpos.mpr h
        linarith
    simp only [h1, if_false]
    split <;> try split
    all_goals omega

theorem le_pyRoundInt {q : Rat} {m : Int} (h : (m : Rat) ≤ q) : m ≤ pyRoundInt q := by
  unfold pyRoundInt
  have hfl : m ≤ ⌊q⌋ := Int.le_floor.mpr h
  split
  · exact hfl
  · split
    · omega
    · split <;> omega

theorem pyRound_le {d : Nat} {q : Rat} {m : Int} (h : q ≤ (m : Rat)) :
    pyRound d q ≤ (m : Rat) := by
  unfold pyRound
  have hpow : (0 : Rat) < (10 : Rat) ^ d := by positivity
  have h1 : q * (10 : Rat) ^ d ≤ ((m * (10 : Int) ^ d : Int) : Rat) := by
    push_cast
    exact mul_le_mul_of_nonneg_right h (le_of_lt hpow)
  have h2 : pyRoundInt (q * (10 : Rat) ^ d) ≤ m * (10 : Int) ^ d := pyRoundInt_le h1
  rw [div_le_iff₀ hpow]
  calc ((pyRoundInt (q * (10 : Rat) ^ d) : Int) : Rat)
      ≤ ((m * (10 : Int) ^ d : Int) : Rat) := by exact_mod_cast h2
    _ = (m : Rat) * (10 : Rat) ^ d := by push_cast; ring

theorem le_pyRound {d : Nat} {q : Rat} {m : Int} (h : (m : Rat) ≤ q) :
    (m : Rat) ≤ pyRound d q := by
  unfold pyRound
  have hpow : (0 : Rat) < (10 : Rat) ^ d := by positivity
  have h1 : ((m * (10 : Int) ^ d : Int) : Rat) ≤ q * (10 : Rat) ^ d := by
    push_cast
    exact mul_le_mul_of_nonneg_right h (le_of_lt hpow)
  have h2 : m * (10 : Int) ^ d ≤ pyRoundInt (q * (10 : Rat) ^ d) := le_pyRoundInt h1
  rw [le_div_iff₀ hpow]
  calc (m : Rat) * (10 : Rat) ^ d
      = ((m * (10 : Int) ^ d : Int) : Rat) := by push_cast; ring
    _ ≤ ((pyRoundInt (q * (10 : Rat) ^ d) : Int) : Rat) := by exact_mod_cast h2

theorem pyRound_zero (d : Nat) : pyRound d 0 = 0 := by
  have h1 : pyRound d 0 ≤ ((0 : Int) : Rat) := pyRound_le (by norm_num)
  have h2 : ((0 : Int) : Rat) ≤ pyRound d 0 := le_pyRound (by norm_num)
  push_cast at h1 h2
  linarith

theorem pyRoundInt_pos {q : Rat} (h : 1/2 < q) : 1 ≤ pyRoundInt q := by
  unfold pyRoundInt
  have hfl : (0 : Int) ≤ ⌊q⌋ := by
    apply Int.le_floor.mpr
    push_cast
    linarith
  rcases lt_or_eq_of_le hfl with hpos | hzero
  · split
    · omega
    · split
      · omega
      · split <;> omega
  · have hq : q - ((⌊q⌋ : Int) : Rat) = q := by rw [← hzero]; push_cast; ring
    rw [hq]
    have hnot : ¬ q < 1/2 := by linarith
    simp only [hnot, if_false, h, if_true]
    omega

/-- If `1/2 < q * 10^d` then `pyRound d q` is strictly positive. -/
theorem pyRound_pos {d : Nat} {q : Rat} (h : 1/2 < q * (10 : Rat) ^ d) :
    0 < pyRound d q := by
  unfold pyRound
  have hpow : (0 : Rat) < (10 : Rat) ^ d := by positivity
  have h1 : 1 ≤ pyRoundInt (q * (10 : Rat) ^ d) := pyRoundInt_pos h
  apply div_pos _ hpow
  exact_mod_cast lt_of_lt_of_le Int.zero_lt_one h1

/-! ## Auxiliary facts about Python `min` over a list -/

theorem foldl_min_mem (x : Int) (xs : List Int) : xs.foldl min x ∈ x :: xs := by
  induction xs generalizing x with
  | nil => simp
  | cons y ys ih =>
    simp only [List.foldl_cons]
    have h := ih (min x y)
    rcases List.mem_cons.mp h with h1 | h1
    · rw [h1]
      rcases min_choice x y with hm | hm
      · rw [hm]
        exact List.mem_cons_self _ _
      · rw [hm]
        exact List.mem_cons_of_mem _ (List.mem_cons_self _ _)
    · exact List.mem_cons_of_mem _ (List.mem_cons_of_mem _ h1)

theorem foldl_min_le (x : Int) (xs : List Int) : ∀ y ∈ x :: xs, xs.foldl min x ≤ y := by
  induction xs generalizing x with
  | nil =>
    intro y hy
    simp only [List.mem_singleton] at hy
    exact hy ▸ le_refl x
  | cons z zs ih =>
    intro y hy
    simp only [List.foldl_cons]
    rcases List.mem_cons.mp hy with h1 | h1
    · have := ih (min x z) (min x z) (List.mem_cons_self _ _)
      exact h1 ▸ this.trans (min_le_left x z)
    · rcases List.mem_cons.mp h1 with h2 | h2
      · have := ih (min x z) (min x z) (List.mem_cons_self _ _)
        exact h2 ▸ this.trans (min_le_right x z)
      · exact ih (min x z) y (List.mem_cons_of_mem _ h2)

/-! ## Evaluating `pyRound` on concrete rationals -/

theorem pyRoundInt_eq_of_lt_half {x : Rat} {n : Int}
    (h1 : (n : Rat) ≤ x) (h2 : x < (n : Rat) + 1) (h3 : x - (n : Rat) < 1/2) :
    pyRoundInt x = n := by
  have hfl : ⌊x⌋ = n := Int.floor_eq_iff.mpr ⟨h1, h2⟩
  unfold pyRoundInt
  rw [hfl, if_pos h3]

theorem pyRoundInt_eq_succ_of_half_lt {x : Rat} {n : Int}
    (h1 : (n : Rat) ≤ x) (h2 : x < (n : Rat) + 1) (h3 : 1/2 < x - (n : Rat)) :
    pyRoundInt x = n + 1 := by
  have hfl : ⌊x⌋ = n := Int.floor_eq_iff.mpr ⟨h1, h2⟩
  unfold pyRoundInt
  rw [hfl, if_neg (by linarith), if_pos h3]

theorem pyRound_eq_of_lt_half {d : Nat} {q : Rat} {n : Int}
    (h1 : (n : Rat) ≤ q * (10 : Rat) ^ d) (h2 : q * (10 : Rat) ^ d < (n : Rat) + 1)
    (h3 : q * (10 : Rat) ^ d - (n : Rat) < 1/2) :
    pyRound d q = (n : Rat) / (10 : Rat) ^ d := by
  unfold pyRound
  rw [pyRoundInt_eq_of_lt_half h1 h2 h3]

theorem pyRound_eq_succ_of_half_lt {d : Nat} {q : Rat} {n : Int}
    (h1 : (n : Rat) ≤ q * (10 : Rat) ^ d) (h2 : q * (10 : Rat) ^ d < (n : Rat) + 1)
    (h3 : 1/2 < q * (10 : Rat) ^ d - (n : Rat)) :
    pyRound d q = ((n : Rat) + 1) / (10 : Rat) ^ d := by
  unfold pyRound
  rw [pyRoundInt_eq_succ_of_half_lt h1 h2 h3]
  push_cast
  ring

/-! ## Auxiliary facts about sums and maxima of rank lists -/

theorem le_foldr_max (l : List Nat) : ∀ x ∈ l, x ≤ l.foldr max 0 := by
  induction l with
  | nil => intro x hx; cases hx
  | cons y ys ih =>
    intro x hx
    rcases List.mem_cons.mp hx with h | h
    · exact h ▸ le_max_left _ _
    · exact (ih x h).trans (le_max_right _ _)

theorem rank_sum_bounds (l : List Nat) (M : Nat) (h : ∀ k ∈ l, 1 ≤ k ∧ k ≤ M) :
    (l.length : Rat) ≤ (l.map (fun (n : Nat) => (n : Rat))).sum ∧
    (l.map (fun (n : Nat) => (n : Rat))).sum ≤ (l.length : Rat) * (M : Rat) := by
  induction l with
  | nil => simp
  | cons y ys ih =>
    have hy := h y (List.mem_cons_self _ _)
    have ihy := ih (fun k hk => h k (List.mem_cons_of_mem _ hk))
    have h1 : (1 : Rat) ≤ (y : Rat) := by exact_mod_cast hy.1
    have h2 : (y : Rat) ≤ (M : Rat) := by exact_mod_cast hy.2
    have hlen : (((y :: ys).length : Nat) : Rat) = (ys.length : Rat) + 1 := by
      rw [List.length_cons]
      push_cast
      ring
    constructor
    · rw [List.map_cons, List.sum_cons, hlen]
      linarith [ihy.1]
    · rw [List.map_cons, List.sum_cons, hlen]
      linarith [ihy.2]

/-! ## C3 — the cache gate -/

/-- C3 counterexample: with no active provider and no stored metric, every
active provider vacuously has a stored metric, yet `check_cache` does not
return the (empty) stored metrics — `min()` over the empty timestamp
sequence raises `ValueError`. -/
theorem C3_counterexample_empty_active_empty_store :
    check_cache [] [] = .error (.valueError "min() arg is an empty sequence") := rfl

/-- C3 as amended: provided at least one provider is active, `check_cache`
is a hit (returning every stored metric plus the oldest update timestamp as
`computed_at`) exactly when every active provider has a stored metric, and a
miss (`None`) otherwise; no exception and no partial hit occurs. -/
theorem C3_cache_hit_iff_all_active_stored
    (metrics : List StoredMetric) (active : List String) (h : active ≠ []) :
    (check_cache metrics active = .ok none ↔
      ¬ ∀ n ∈ active, n ∈ metrics.map (·.llm_name)) ∧
    ((∀ n ∈ active, n ∈ metrics.map (·.llm_name)) →
      ∃ hit : CacheHit,
        check_cache metrics active = .ok (some hit) ∧
        hit.metrics = metrics.map (fun m => (m.llm_name, cacheEntry m)) ∧
        hit.computed_at ∈ metrics.map (·.updated_at) ∧
        ∀ t ∈ metrics.map (·.updated_at), hit.computed_at ≤ t) := by
  have hcond : (active.all (fun n => (metrics.map (·.llm_name)).contains n) = true) ↔
      (∀ n ∈ active, n ∈ metrics.map (·.llm_name)) := by
    simp [List.all_eq_true]
  by_cases hsub : ∀ n ∈ active, n ∈ metrics.map (·.llm_name)
  · have hne : metrics ≠ [] := by
      intro hnil
      rcases List.exists_mem_of_ne_nil active h with ⟨n, hn⟩
      have := hsub n hn
      simp [hnil] at this
    rcases List.exists_cons_of_ne_nil hne with ⟨m, rest, hm⟩
    subst hm
    constructor
    · constructor
      · intro hmiss
        exfalso
        unfold check_cache at hmiss
        rw [if_pos (hcond.mpr hsub)] at hmiss
        simp [pyMin] at hmiss
      · intro hns
        exact absurd hsub hns
    · intro _
      refine ⟨⟨(m :: rest).map (fun m => (m.llm_name, cacheEntry m)),
        (rest.map (·.updated_at)).foldl min m.updated_at⟩, ?_, rfl, ?_, ?_⟩
      · unfold check_cache
        rw [if_pos (hcond.mpr hsub)]
        rfl
      · simpa using foldl_min_mem m.updated_at (rest.map (·.updated_at))
      · intro t ht
        exact foldl_min_le m.updated_at (rest.map (·.updated_at)) t (by simpa using ht)
  · constructor
    · constructor
      · intro _
        exact hsub
      · intro _
        unfold check_cache
        rw [if_neg (fun hc => hsub (hcond.mp hc))]
    · intro hs
      exact absurd hs hsub

/-- Witness for C3: one active provider with no stored metric is a miss. -/
theorem C3_cache_hit_iff_all_active_stored_witness :
    check_cache [] ["chatgpt"] = .ok none :=
  (C3_cache_hit_iff_all_active_stored [] ["chatgpt"] (by decide)).1.mpr (by simp)

/-! ## C1 — the pipeline entry point -/

/-- C1: the claim says every `get_or_compute_metrics` call with a brand
domain, a session and a non-empty client map returns normally with the
result dictionary on both the cache-hit and the cache-miss path.  The code
does not: `check_cache` (five required parameters) is called with four
positional arguments at src/services/metric_service.py line 92, so every
call raises `TypeError` before any cache logic runs, whatever the store and
collaborators would have done. -/
theorem C1_entry_point_always_raises_typeError (env : PipelineEnv) :
    get_or_compute_metrics env =
      .error (.typeError "positional argument count does not match required parameters") := rfl

/-! ## C2 — retry/backoff in the provider clients -/

/-- C2: the claim says a Timeout-classified failure is attempted again (up
to the attempt cap) before being surfaced.  In the code the retry wrapper
retries only the SDK timeout classes (`APITimeoutError`,
`DeadlineExceeded`), but the decorated body converts those into
`LLMTimeoutError` before the wrapper sees them, so an SDK timeout on the
first attempt is surfaced after exactly one attempt — even when a second
attempt would have succeeded. -/
theorem C2_sdk_timeout_surfaced_after_one_attempt
    (catt gatt : Nat → ApiOutcome) (m₁ m₂ : String)
    (h1 : catt 1 = .raises ⟨.apiTimeoutError, m₁⟩)
    (h2 : gatt 1 = .raises ⟨.deadlineExceeded, m₂⟩) :
    chatgptQuery catt = (.error ⟨.llmTimeoutError, "ChatGPT request timed out"⟩, 1) ∧
    geminiQuery gatt = (.error ⟨.llmTimeoutError, "Gemini request timed out"⟩, 1) := by
  constructor
  · unfold chatgptQuery tenacityRun
    simp only [tenacityGo, h1]
    rfl
  · unfold geminiQuery tenacityRun
    simp only [tenacityGo, h2]
    rfl

/-- Witness for C2: a run whose first SDK call times out and whose second
would succeed still fails after a single attempt. -/
theorem C2_sdk_timeout_surfaced_after_one_attempt_witness :
    chatgptQuery (fun i => if i = 1 then .raises ⟨.apiTimeoutError, "t"⟩ else .success "ok") =
      (.error ⟨.llmTimeoutError, "ChatGPT request timed out"⟩, 1) ∧
    geminiQuery (fun i => if i = 1 then .raises ⟨.deadlineExceeded, "t"⟩ else .success "ok") =
      (.error ⟨.llmTimeoutError, "Gemini request timed out"⟩, 1) :=
  C2_sdk_timeout_surfaced_after_one_attempt
    (fun i => if i = 1 then .raises ⟨.apiTimeoutError, "t"⟩ else .success "ok")
    (fun i => if i = 1 then .raises ⟨.deadlineExceeded, "t"⟩ else .success "ok")
    "t" "t" rfl rfl

/-! ## C5 — mention rate -/

/-- C5 counterexample: with 2001 records of which exactly one mentions the
brand, the rate 1/2001 rounds to `0.0` at 3 decimals, so `mentionRate = 0.0`
does not imply the brand appears in zero records. -/
theorem C5_counterexample_tiny_rate_rounds_to_zero :
    mentionCount "b" manyResponses = 1 ∧
    calculate_mention_rate "b" manyResponses = 0 := by
  have hcount : mentionCount "b" manyResponses = 1 := by
    unfold mentionCount manyResponses
    rw [List.countP_append]
    have h0 : (List.replicate 2000 (⟨"", [], []⟩ : Response)).countP
        (fun r => (r.brands_list.map normalize_brand_name).contains
          (normalize_brand_name "b")) = 0 := by
      rw [List.countP_eq_zero]
      intro a ha
      rw [List.eq_of_mem_replicate ha]
      decide
    rw [h0]
    decide
  refine ⟨hcount, ?_⟩
  have hlen : manyResponses.length = 2001 := by
    unfold manyResponses
    rw [List.length_append, List.length_replicate]
    rfl
  have hne : manyResponses.isEmpty = false := by
    cases h : manyResponses with
    | nil => rw [h] at hlen; simp at hlen
    | cons a l => rfl
  unfold calculate_mention_rate
  rw [hne, hcount, hlen]
  simp only [Bool.false_eq_true, if_false]
  have hq : ((1 : Nat) : Rat) / ((2001 : Nat) : Rat) = 1 / 2001 := by norm_num
  rw [hq, pyRound_eq_of_lt_half (n := 0) (by norm_num) (by norm_num) (by norm_num)]
  norm_num

/-- C5 as amended: `mentionRate` always lies in `[0,1]`, is `0.0` with no
records, and is `0.0` whenever the brand appears in zero records; the
converse ("`0.0` only if zero records mention the brand") holds whenever
there are fewer than 2000 records, but can fail beyond that because a
positive rate below half a thousandth rounds to `0.0`. -/
theorem C5_mention_rate_bounds_and_zero_iff
    (brand : String) (responses : List Response) :
    0 ≤ calculate_mention_rate brand responses ∧
    calculate_mention_rate brand responses ≤ 1 ∧
    (responses = [] → calculate_mention_rate brand responses = 0) ∧
    (mentionCount brand responses = 0 → calculate_mention_rate brand responses = 0) ∧
    (responses.length ≤ 1999 →
      (calculate_mention_rate brand responses = 0 ↔ mentionCount brand responses = 0)) := by
  by_cases hE : responses.isEmpty
  · have hnil : responses = [] := List.isEmpty_iff.mp hE
    subst hnil
    unfold calculate_mention_rate
    simp only [List.isEmpty_nil, if_true]
    rw [pyRound_zero]
    refine ⟨le_refl 0, by norm_num, fun _ => rfl, fun _ => rfl, fun _ => ?_⟩
    constructor
    · intro _
      rfl
    · intro _
      rfl
  · have hnil : responses ≠ [] := fun h => by simp [h] at hE
    have hlen : 0 < responses.length := List.length_pos.mpr hnil
    have hlenR : (0 : Rat) < (responses.length : Rat) := by exact_mod_cast hlen
    have hm : mentionCount brand responses ≤ responses.length :=
      List.countP_le_length _
    have hq0 : (0 : Rat) ≤ (mentionCount brand responses : Rat) / (responses.length : Rat) := by
      positivity
    have hq1 : (mentionCount brand responses : Rat) / (responses.length : Rat) ≤ 1 := by
      rw [div_le_one hlenR]
      exact_mod_cast hm
    have hrate : calculate_mention_rate brand responses =
        pyRound 3 ((mentionCount brand responses : Rat) / (responses.length : Rat)) := by
      unfold calculate_mention_rate
      rw [if_neg (by simp [hE])]
    refine ⟨?_, ?_, fun h => absurd h hnil, ?_, ?_⟩
    · rw [hrate]
      have := le_pyRound (d := 3) (m := 0) (by exact_mod_cast hq0)
      exact_mod_cast this
    · rw [hrate]
      have := pyRound_le (d := 3) (m := 1) (by exact_mod_cast hq1)
      exact_mod_cast this
    · intro hzero
      rw [hrate, hzero]
      simpa using pyRound_zero 3
    · intro hsmall
      constructor
      · intro hrz
        rw [hrate] at hrz
        by_contra hmz
        have hm1 : 1 ≤ mentionCount brand responses := Nat.one_le_iff_ne_zero.mpr hmz
        have hm1R : (1 : Rat) ≤ (mentionCount brand responses : Rat) := by exact_mod_cast hm1
        have hlen1999 : (responses.length : Rat) ≤ 1999 := by exact_mod_cast hsmall
        have hstep1 : (1 : Rat) / 1999 ≤ 1 / (responses.length : Rat) :=
          one_div_le_one_div_of_le hlenR hlen1999
        have hstep2 : (1 : Rat) / (responses.length : Rat) ≤
            (mentionCount brand responses : Rat) / (responses.length : Rat) :=
          (div_le_div_iff_of_pos_right hlenR).mpr hm1R
        have hmul := mul_le_mul_of_nonneg_right (hstep1.trans hstep2)
          (by norm_num : (0 : Rat) ≤ (10 : Rat) ^ 3)
        have hhalf : (1 : Rat) / 2 <
            (mentionCount brand responses : Rat) / (responses.length : Rat) * (10 : Rat) ^ 3 := by
          calc (1 : Rat) / 2 < 1 / 1999 * (10 : Rat) ^ 3 := by norm_num
            _ ≤ _ := hmul
        have hpos := pyRound_pos hhalf
        rw [hrz] at hpos
        exact lt_irrefl 0 hpos
      · intro hzero
        rw [hrate, hzero]
        simpa using pyRound_zero 3

/-! ## C6 — brand rank -/

/-- C6: `brandRank` is `None` exactly when the brand appears in no record's
mention list; any returned value lies within `[1, maxMentionsInAnyRecord]`
(absent records are excluded from the average, not counted as last place);
and the spec's three-record example yields `rank(Samsung)=1.0`,
`rank(Apple)=1.5`, `rank(Google)=2.33`, `mentionRate(Samsung)=0.667`. -/
theorem C6_brand_rank_null_iff_absent_and_bounded
    (brand : String) (responses : List Response) :
    (calculate_brand_rank brand responses = none ↔
      ∀ r ∈ responses,
        normalize_brand_name brand ∉ r.brands_list.map normalize_brand_name) ∧
    (∀ v, calculate_brand_rank brand responses = some v →
      1 ≤ v ∧ v ≤ (maxMentions responses : Rat)) ∧
    calculate_brand_rank "Samsung" exampleResponses = some 1 ∧
    calculate_brand_rank "Apple" exampleResponses = some (3/2) ∧
    calculate_brand_rank "Google" exampleResponses = some (233/100) ∧
    calculate_mention_rate "Samsung" exampleResponses = 667/1000 := by
  have hcontains : ∀ (l : List String) (a : String), l.contains a = true ↔ a ∈ l := by
    intro l a
    exact List.elem_iff
  refine ⟨?_, ?_, ?_, ?_, ?_, ?_⟩
  · unfold calculate_brand_rank
    by_cases hE : (brandRanks brand responses).isEmpty
    · rw [if_pos hE]
      have hnil : brandRanks brand responses = [] := List.isEmpty_iff.mp hE
      unfold brandRanks at hnil
      rw [List.filterMap_eq_nil_iff] at hnil
      simp only [true_iff]
      intro r hr hmem
      have := hnil r hr
      rw [if_pos ((hcontains _ _).mpr hmem)] at this
      cases this
    · rw [if_neg hE]
      simp only [reduceCtorEq, false_iff]
      intro hall
      apply hE
      apply List.isEmpty_iff.mpr
      unfold brandRanks
      rw [List.filterMap_eq_nil_iff]
      intro r hr
      rw [if_neg ?_]
      intro hc
      exact hall r hr ((hcontains _ _).mp hc)
  · intro v hv
    unfold calculate_brand_rank at hv
    by_cases hE : (brandRanks brand responses).isEmpty
    · rw [if_pos hE] at hv
      cases hv
    · rw [if_neg hE] at hv
      have hbound : ∀ k ∈ brandRanks brand responses, 1 ≤ k ∧ k ≤ maxMentions responses := by
        intro k hk
        unfold brandRanks at hk
        rcases List.mem_filterMap.mp hk with ⟨r, hr, hfr⟩
        by_cases hc : (r.brands_list.map normalize_brand_name).contains
            (normalize_brand_name brand) = true
        · rw [if_pos hc] at hfr
          have hidx : (r.brands_list.map normalize_brand_name).indexOf
              (normalize_brand_name brand) < (r.brands_list.map normalize_brand_name).length :=
            List.indexOf_lt_length.mpr ((hcontains _ _).mp hc)
          rw [List.length_map] at hidx
          have hmax : r.brands_list.length ≤ maxMentions responses := by
            apply le_foldr_max
            exact List.mem_map_of_mem (fun x => x.brands_list.length) hr
          injection hfr with hfr
          omega
        · rw [if_neg hc] at hfr
          cases hfr
      have hnil : brandRanks brand responses ≠ [] := fun h => by simp [h] at hE
      have hlen : 0 < (brandRanks brand responses).length := List.length_pos.mpr hnil
      have hlenR : (0 : Rat) < ((brandRanks brand responses).length : Rat) := by
        exact_mod_cast hlen
      have hsum := rank_sum_bounds (brandRanks brand responses) (maxMentions responses) hbound
      have havg1 : (1 : Rat) ≤
          ((brandRanks brand responses).map (fun (n : Nat) => (n : Rat))).sum /
            ((brandRanks brand responses).length : Rat) := by
        rw [le_div_iff₀ hlenR, one_mul]
        exact hsum.1
      have havg2 : ((brandRanks brand responses).map (fun (n : Nat) => (n : Rat))).sum /
            ((brandRanks brand responses).length : Rat) ≤ (maxMentions responses : Rat) := by
        rw [div_le_iff₀ hlenR]
        calc ((brandRanks brand responses).map (fun (n : Nat) => (n : Rat))).sum
            ≤ ((brandRanks brand responses).length : Rat) * (maxMentions responses : Rat) :=
              hsum.2
          _ = (maxMentions responses : Rat) * ((brandRanks brand responses).length : Rat) := by
              ring
      injection hv with hv
      subst hv
      constructor
      · have := le_pyRound (d := 2) (m := 1) (by exact_mod_cast havg1)
        exact_mod_cast this
      · have := pyRound_le (d := 2) (m := (maxMentions responses : Int)) (by
          push_cast
          exact havg2)
        calc pyRound 2 _ ≤ ((maxMentions responses : Int) : Rat) := this
          _ = (maxMentions responses : Rat) := by push_cast; rfl
  · have hr : brandRanks "Samsung" exampleResponses = [1, 1] := by decide
    unfold calculate_brand_rank
    rw [hr]
    simp only [List.isEmpty_cons, Bool.false_eq_true, if_false, List.map_cons, List.map_nil,
      List.sum_cons, List.sum_nil, List.length_cons, List.length_nil]
    norm_num
    rw [pyRound_eq_of_lt_half (n := 100) (by norm_num) (by norm_num) (by norm_num)]
    norm_num
  · have hr : brandRanks "Apple" exampleResponses = [2, 1] := by decide
    unfold calculate_brand_rank
    rw [hr]
    simp only [List.isEmpty_cons, Bool.false_eq_true, if_false, List.map_cons, List.map_nil,
      List.sum_cons, List.sum_nil, List.length_cons, List.length_nil]
    norm_num
    rw [pyRound_eq_of_lt_half (n := 150) (by norm_num) (by norm_num) (by norm_num)]
    norm_num
  · have hr : brandRanks "Google" exampleResponses = [3, 2, 2] := by decide
    unfold calculate_brand_rank
    rw [hr]
    simp only [List.isEmpty_cons, Bool.false_eq_true, if_false, List.map_cons, List.map_nil,
      List.sum_cons, List.sum_nil, List.length_cons, List.length_nil]
    norm_num
    rw [pyRound_eq_of_lt_half (n := 233) (by norm_num) (by norm_num) (by norm_num)]
    norm_num
  · have hc : mentionCount "Samsung" exampleResponses = 2 := by decide
    have hl : exampleResponses.length = 3 := by decide
    have hne : exampleResponses.isEmpty = false := by decide
    unfold calculate_mention_rate
    rw [hne, hc, hl]
    simp only [Bool.false_eq_true, if_false]
    have hq : ((2 : Nat) : Rat) / ((3 : Nat) : Rat) = 2 / 3 := by norm_num
    rw [hq, pyRound_eq_succ_of_half_lt (n := 666) (by norm_num) (by norm_num) (by norm_num)]
    norm_num

/-- Witness for C6: the bound conjunct applied at the spec's example. -/
theorem C6_brand_rank_null_iff_absent_and_bounded_witness :
    1 ≤ (233/100 : Rat) ∧ (233/100 : Rat) ≤ (maxMentions exampleResponses : Rat) :=
  (C6_brand_rank_null_iff_absent_and_bounded "Google" exampleResponses).2.1 (233/100)
    (C6_brand_rank_null_iff_absent_and_bounded "Google" exampleResponses).2.2.2.2.1

/-- Witness for C5: the empty-record-set conjunct applied at a concrete
input. -/
theorem C5_mention_rate_bounds_and_zero_iff_witness :
    calculate_mention_rate "Samsung" [] = 0 :=
  (C5_mention_rate_bounds_and_zero_iff "Samsung" []).2.2.1 rfl

/-! ## C7 — aggregation over the per-provider map -/

theorem lookup_map_of_mem {α : Type} (g : String × LLMMetrics → α)
    (per : List (String × LLMMetrics)) (name : String) (v : LLMMetrics)
    (hmem : (name, v) ∈ per) (hnd : (per.map Prod.fst).Nodup) :
    (per.map (fun p => (p.1, g p))).lookup name = some (g (name, v)) := by
  induction per with
  | nil => cases hmem
  | cons p rest ih =>
    rw [List.map_cons] at hnd
    rcases List.mem_cons.mp hmem with h | h
    · rw [← h]
      simp [List.lookup]
    · have hname : ¬ name = p.1 := by
        intro he
        apply (List.nodup_cons.mp hnd).1
        rw [← he]
        have := List.mem_map_of_mem Prod.fst h
        simpa using this
      rw [List.map_cons]
      have hbeq : (name == p.1) = false := by
        simpa using hname
      simp only [List.lookup, hbeq]
      exact ih h (List.nodup_cons.mp hnd).2

theorem filterMap_successfulLLMs {α : Type} (g : String × LLMMetrics → Option α)
    (h : ∀ p : String × LLMMetrics, p.2.isOk = false → g p = none)
    (per : List (String × LLMMetrics)) :
    (successfulLLMs per).filterMap g = per.filterMap g := by
  induction per with
  | nil => rfl
  | cons p rest ih =>
    unfold successfulLLMs at ih ⊢
    by_cases hp : p.2.isOk
    · rw [List.filter_cons_of_pos (by simpa using hp), List.filterMap_cons, List.filterMap_cons, ih]
    · rw [List.filter_cons_of_neg (by simpa using hp), List.filterMap_cons,
        h p (by simpa using hp), ih]

theorem successfulLLMs_idem (per : List (String × LLMMetrics)) :
    successfulLLMs (successfulLLMs per) = successfulLLMs per := by
  unfold successfulLLMs
  apply List.filter_eq_self.mpr
  intro a ha
  exact (List.mem_filter.mp ha).2

theorem mentionRatesOf_successful (per : List (String × LLMMetrics)) :
    mentionRatesOf (successfulLLMs per) = mentionRatesOf per := by
  unfold mentionRatesOf
  refine filterMap_successfulLLMs _ (fun p hp => ?_) per
  cases hv : p.2 with
  | ok m => rw [hv] at hp; simp [LLMMetrics.isOk] at hp
  | failed e => rfl

theorem citationRatesOf_successful (per : List (String × LLMMetrics)) :
    citationRatesOf (successfulLLMs per) = citationRatesOf per := by
  unfold citationRatesOf
  refine filterMap_successfulLLMs _ (fun p hp => ?_) per
  cases hv : p.2 with
  | ok m => rw [hv] at hp; simp [LLMMetrics.isOk] at hp
  | failed e => rfl

theorem sentimentScoresOf_successful (per : List (String × LLMMetrics)) :
    sentimentScoresOf (successfulLLMs per) = sentimentScoresOf per := by
  unfold sentimentScoresOf
  refine filterMap_successfulLLMs _ (fun p hp => ?_) per
  cases hv : p.2 with
  | ok m => rw [hv] at hp; simp [LLMMetrics.isOk] at hp
  | failed e => rfl

theorem brandRanksOf_successful (per : List (String × LLMMetrics)) :
    brandRanksOf (successfulLLMs per) = brandRanksOf per := by
  unfold brandRanksOf
  refine filterMap_successfulLLMs _ (fun p hp => ?_) per
  cases hv : p.2 with
  | ok m => rw [hv] at hp; simp [LLMMetrics.isOk] at hp
  | failed e => rfl

/-- C7: providers carrying a failure marker contribute `0.0` to the displayed
per-provider mention-rate and citation-rate maps and an empty citation list;
the averaged figures are computed from the successful providers alone (so
failed providers are excluded from every denominator); an all-failed map
yields the top-level failure object; and on the spec's example (A: 0.8,
B: 0.6, C failed) the average mention rate is 0.7. -/
theorem C7_aggregation_excludes_failed_providers
    (per : List (String × LLMMetrics)) (ranking : List (String × Rat)) (brand : String)
    (hnd : (per.map Prod.fst).Nodup) :
    (∀ name err a, (name, LLMMetrics.failed err) ∈ per →
      aggregate_metrics_across_llms per ranking brand = .ok a →
      a.mentionRateByLLM.lookup name = some 0 ∧
      a.citationsByLLM.lookup name = some 0 ∧
      a.citationOverview.lookup name = some []) ∧
    aggAverages (aggregate_metrics_across_llms per ranking brand) =
      aggAverages (aggregate_metrics_across_llms (successfulLLMs per) ranking brand) ∧
    (aggregate_metrics_across_llms per ranking brand = .allFailed ↔
      successfulLLMs per = []) ∧
    (∀ a, aggregate_metrics_across_llms examplePerLLM [] "Brand" = .ok a →
      a.averageMentionRate = 7/10 ∧ a.mentionRateByLLM.lookup "C" = some 0 ∧
      a.citationsByLLM.lookup "C" = some 0 ∧ a.citationOverview.lookup "C" = some []) := by
  refine ⟨?_, ?_, ?_, ?_⟩
  · intro name err a hmem hok
    unfold aggregate_metrics_across_llms at hok
    by_cases hS : successfulLLMs per = []
    · rw [if_pos hS] at hok
      cases hok
    · rw [if_neg hS] at hok
      injection hok with hok
      subst hok
      refine ⟨?_, ?_, ?_⟩
      · exact lookup_map_of_mem _ per name (LLMMetrics.failed err) hmem hnd
      · exact lookup_map_of_mem _ per name (LLMMetrics.failed err) hmem hnd
      · exact lookup_map_of_mem _ per name (LLMMetrics.failed err) hmem hnd
  · by_cases hS : successfulLLMs per = []
    · unfold aggregate_metrics_across_llms
      rw [if_pos hS, if_pos (by rw [successfulLLMs_idem]; exact hS)]
    · have hS2 : ¬ successfulLLMs (successfulLLMs per) = [] := by
        rw [successfulLLMs_idem]
        exact hS
      unfold aggregate_metrics_across_llms
      rw [if_neg hS, if_neg hS2]
      unfold aggAverages
      rw [mentionRatesOf_successful, citationRatesOf_successful,
        sentimentScoresOf_successful, brandRanksOf_successful]
  · by_cases hS : successfulLLMs per = []
    · unfold aggregate_metrics_across_llms
      rw [if_pos hS]
      simp [hS]
    · unfold aggregate_metrics_across_llms
      rw [if_neg hS]
      simp [hS]
  · intro a ha
    unfold aggregate_metrics_across_llms at ha
    rw [if_neg (by decide)] at ha
    injection ha with ha
    subst ha
    refine ⟨?_, ?_, ?_, ?_⟩
    · simp only [mentionRatesOf, examplePerLLM, List.filterMap_cons, List.filterMap_nil]
      rw [if_neg (by simp)]
      have hpy : pyRound 3 (7/10) = 7/10 := by
        rw [pyRound_eq_of_lt_half (n := 700) (by norm_num) (by norm_num) (by norm_num)]
        norm_num
      rw [show ([(4 : Rat)/5, 3/5].sum / (([(4 : Rat)/5, 3/5].length : Nat) : Rat)) = 7/10
        by norm_num [List.sum_cons], hpy]
    · simp [examplePerLLM, List.lookup]
    · simp [examplePerLLM, List.lookup]
    · simp [examplePerLLM, List.lookup]

/-- Witness for C7: the all-failed iff applied at the spec's example map. -/
theorem C7_aggregation_excludes_failed_providers_witness :
    aggregate_metrics_across_llms examplePerLLM [] "Brand" = .allFailed ↔
      successfulLLMs examplePerLLM = [] :=
  (C7_aggregation_excludes_failed_providers examplePerLLM [] "Brand" (by decide)).2.2.1

/-! ## C9 — normalization invariance of brand matching -/

/-- C9: mention rate and brand rank depend on the brand argument and on the
records only through `normalize_brand_name`; in particular the inputs
`"Samsung"`, `"  samsung™ "` and `"SAMSUNG"` all normalize to `"samsung"`
and therefore yield identical results against any record set, and the same
invariance holds for the brand names inside each record's mention list. -/
theorem C9_brand_matching_normalization_invariant
    (b b' : String) (rs rs' : List Response)
    (hb : normalize_brand_name b = normalize_brand_name b')
    (hrs : List.Forall₂ (fun r r' =>
      r.brands_list.map normalize_brand_name = r'.brands_list.map normalize_brand_name) rs rs') :
    calculate_mention_rate b rs = calculate_mention_rate b' rs' ∧
    calculate_brand_rank b rs = calculate_brand_rank b' rs' ∧
    normalize_brand_name "Samsung" = "samsung" ∧
    normalize_brand_name "  samsung™ " = "samsung" ∧
    normalize_brand_name "SAMSUNG" = "samsung" := by
  have hcount : mentionCount b rs = mentionCount b' rs' := by
    induction hrs with
    | nil => rfl
    | cons h t ih =>
      unfold mentionCount at ih ⊢
      rw [List.countP_cons, List.countP_cons, ih, h, hb]
  have hranks : brandRanks b rs = brandRanks b' rs' := by
    clear hcount
    induction hrs with
    | nil => rfl
    | cons h t ih =>
      unfold brandRanks at ih ⊢
      rw [List.filterMap_cons, List.filterMap_cons, ih, h, hb]
  have hlen : rs.length = rs'.length := hrs.length_eq
  have hE : rs.isEmpty = rs'.isEmpty := by
    cases hrs with
    | nil => rfl
    | cons h t => rfl
  refine ⟨?_, ?_, by decide, by decide, by decide⟩
  · unfold calculate_mention_rate
    rw [hE, hcount, hlen]
  · unfold calculate_brand_rank
    rw [hranks]

/-- Witness for C9: the three spellings agree on the example records. -/
theorem C9_brand_matching_normalization_invariant_witness :
    calculate_mention_rate "Samsung" exampleResponses =
      calculate_mention_rate "  samsung™ " exampleResponses ∧
    calculate_brand_rank "SAMSUNG" exampleResponses =
      calculate_brand_rank "Samsung" exampleResponses :=
  ⟨(C9_brand_matching_normalization_invariant "Samsung" "  samsung™ "
      exampleResponses exampleResponses (by decide)
      (List.forall₂_same.mpr (fun r _ => rfl))).1,
   (C9_brand_matching_normalization_invariant "SAMSUNG" "Samsung"
      exampleResponses exampleResponses (by decide)
      (List.forall₂_same.mpr (fun r _ => rfl))).2.1⟩

/-! ## C8 — prompt resolution -/

/-- C8: with exactly `count` stored prompts the resolver returns them and
stores nothing new; with more than `count` it returns a size-`count`
without-replacement sample (for any sampler with `random.sample`'s
size/membership contract) and stores nothing; with fewer it returns all
stored prompts plus at most `count - stored` newly parsed prompts, persists
exactly those new prompts, and accepts a shortfall — the output length can
fall below `count` only in that case. -/
theorem C8_prompt_resolution_cases
    (stored : List String) (count : Nat)
    (sample : List String → Nat → List String) (resp : String)
    (hs : ∀ (l : List String) (n : Nat), n ≤ l.length →
      (sample l n).length = n ∧ List.Subperm (sample l n) l) :
    (stored.length = count →
      get_or_generate_prompts stored count sample resp = (stored, stored)) ∧
    (count < stored.length →
      get_or_generate_prompts stored count sample resp = (sample stored count, stored) ∧
      (get_or_generate_prompts stored count sample resp).1.length = count ∧
      List.Subperm (get_or_generate_prompts stored count sample resp).1 stored) ∧
    (stored.length < count →
      get_or_generate_prompts stored count sample resp =
        (stored ++ generate_prompts (count - stored.length) resp,
         stored ++ generate_prompts (count - stored.length) resp) ∧
      (generate_prompts (count - stored.length) resp).length ≤ count - stored.length ∧
      (get_or_generate_prompts stored count sample resp).1.length ≤ count) := by
  refine ⟨?_, ?_, ?_⟩
  · intro h
    unfold get_or_generate_prompts
    rw [if_pos h]
  · intro h
    have heq : get_or_generate_prompts stored count sample resp =
        (sample stored count, stored) := by
      unfold get_or_generate_prompts
      rw [if_neg (by omega), if_pos h]
    have hsp := hs stored count (le_of_lt h)
    rw [heq]
    exact ⟨rfl, hsp.1, hsp.2⟩
  · intro h
    have heq : get_or_generate_prompts stored count sample resp =
        (stored ++ generate_prompts (count - stored.length) resp,
         stored ++ generate_prompts (count - stored.length) resp) := by
      unfold get_or_generate_prompts
      rw [if_neg (by omega), if_neg (by omega)]
    have hgen : (generate_prompts (count - stored.length) resp).length ≤
        count - stored.length := by
      unfold generate_prompts
      rw [List.length_take]
      omega
    refine ⟨heq, hgen, ?_⟩
    rw [heq]
    simp only [List.length_append]
    omega

/-- Witness for C8: 3 stored prompts, 2 requested, take-based sampler. -/
theorem C8_prompt_resolution_cases_witness :
    get_or_generate_prompts ["a", "b", "c"] 2 (fun l n => l.take n) "x" =
      (["a", "b"], ["a", "b", "c"]) :=
  ((C8_prompt_resolution_cases ["a", "b", "c"] 2 (fun l n => l.take n) "x"
    (by
      intro l n hn
      constructor
      · rw [List.length_take]
        omega
      · exact (List.take_sublist n l).subperm)).2.1 (by norm_num)).1

/-! ## C10 — scheme-less citation URLs -/

theorem extractDomainChars_schemeless (u : List Char)
    (h1 : ':' ∉ u) (h2 : u.take 2 ≠ ['/', '/']) :
    extractDomainChars u = "https://".data := by
  have hcand : schemeCandidate u = u := by
    unfold schemeCandidate
    rw [List.takeWhile_eq_self_iff]
    intro x hx
    simp only [decide_eq_true_eq]
    intro he
    exact h1 (he ▸ hx)
  have hsplit : splitUrlScheme u = ([], u) := by
    unfold splitUrlScheme
    rw [if_neg]
    rw [hcand]
    intro hcond
    exact absurd hcond.1 (lt_irrefl _)
  unfold extractDomainChars
  rw [hsplit]
  simp only [ne_eq, not_true_eq_false, if_false]
  unfold urlNetloc
  rw [if_neg h2]
  unfold stripWWW
  rw [if_neg (by decide)]
  rw [List.append_nil]

theorem extractDomainChars_https (w : List Char)
    (h4 : ∀ c ∈ w, ¬(c = '/' ∨ c = '?' ∨ c = '#' ∨ c = ':'))
    (h5 : ¬ ("www.".data.isPrefixOf w = true)) :
    extractDomainChars ("https://".data ++ w) = "https://".data ++ w := by
  have hdata : "https://".data ++ w = 'h' :: 't' :: 't' :: 'p' :: 's' :: ':' :: '/' :: '/' :: w := rfl
  have hcand : schemeCandidate ("https://".data ++ w) = "https".data := by
    unfold schemeCandidate
    rw [hdata]
    rw [List.takeWhile_cons, if_pos (by decide), List.takeWhile_cons, if_pos (by decide),
      List.takeWhile_cons, if_pos (by decide), List.takeWhile_cons, if_pos (by decide),
      List.takeWhile_cons, if_pos (by decide), List.takeWhile_cons, if_neg (by decide)]
  have hsplit : splitUrlScheme ("https://".data ++ w) = ("https".data, '/' :: '/' :: w) := by
    unfold splitUrlScheme
    rw [hcand]
    rw [if_pos]
    · rfl
    · refine ⟨?_, by decide, by decide, by decide⟩
      rw [hdata]
      show 5 < ('h' :: 't' :: 't' :: 'p' :: 's' :: ':' :: '/' :: '/' :: w).length
      simp only [List.length_cons]
      omega
  unfold extractDomainChars
  rw [hsplit]
  rw [if_pos (List.cons_ne_nil _ _)]
  have hnet : urlNetloc ('/' :: '/' :: w) = w := by
    unfold urlNetloc
    rw [if_pos (show List.take 2 ('/' :: '/' :: w) = ['/', '/'] from rfl)]
    show List.takeWhile _ w = w
    rw [List.takeWhile_eq_self_iff]
    intro x hx
    have hx4 := h4 x hx
    simp only [Bool.not_eq_true', Bool.or_eq_false_iff, decide_eq_false_iff_not]
    exact ⟨⟨fun h => hx4 (Or.inl h), fun h => hx4 (Or.inr (Or.inl h))⟩,
      fun h => hx4 (Or.inr (Or.inr (Or.inl h)))⟩
  rw [hnet]
  unfold stripWWW
  rw [if_neg h5]
  rfl

/-- C10: a citation URL with no `:` and no leading `//` is normalized to the
constant `"https://"` (empty host) — all such citations share that single
counter key — while the brand domain computed from `"https://" + website`
keeps the website as its host; the two can never be equal, so a record whose
citations are all scheme-less contributes nothing to
`brandDomainCitationRate` (rate `0.0` when every record is such).
`website` here is a plain registrable domain: nonempty, no `/?#:`
characters, not starting with `www.` (the pipeline strips `www.` before the
call). -/
theorem C10_schemeless_citation_never_matches_brand
    (url website : String) (responses : List Response)
    (h1 : ':' ∉ url.data) (h2 : url.data.take 2 ≠ ['/', '/'])
    (h3 : website.data ≠ [])
    (h4 : ∀ c ∈ website.data, ¬(c = '/' ∨ c = '?' ∨ c = '#' ∨ c = ':'))
    (h5 : ¬ ("www.".data.isPrefixOf website.data = true))
    (h6 : ∀ r ∈ responses, ∀ u ∈ r.citation_list,
      ':' ∉ u.data ∧ u.data.take 2 ≠ ['/', '/']) :
    extract_domain url = "https://" ∧
    extract_domain ("https://" ++ website) = "https://" ++ website ∧
    extract_domain url ≠ extract_domain ("https://" ++ website) ∧
    calculate_brand_domain_citation_rate website responses = 0 := by
  have hA : ∀ u : String, ':' ∉ u.data → u.data.take 2 ≠ ['/', '/'] →
      extract_domain u = "https://" := by
    intro u hu1 hu2
    unfold extract_domain
    rw [extractDomainChars_schemeless u.data hu1 hu2]
  have hB : extract_domain ("https://" ++ website) = "https://" ++ website := by
    unfold extract_domain
    rw [String.data_append, extractDomainChars_https website.data h4 h5,
      ← String.data_append]
  have hC : ("https://" : String) ≠ "https://" ++ website := by
    intro he
    have hlen := congrArg (fun s : String => s.data.length) he
    simp only [String.data_append, List.length_append] at hlen
    have hw : website.data.length = 0 := by omega
    exact h3 (List.eq_nil_of_length_eq_zero hw)
  refine ⟨hA url h1 h2, hB, ?_, ?_⟩
  · rw [hA url h1 h2, hB]
    exact hC
  · have hzero : brandCitingCount website responses = 0 := by
      unfold brandCitingCount
      rw [List.countP_eq_zero]
      intro r hr
      simp only [Bool.not_eq_true, List.any_eq_false, decide_eq_false_iff_not]
      intro u hu
      rcases h6 r hr u hu with ⟨hu1, hu2⟩
      rw [hA u hu1 hu2, hB]
      exact hC
    unfold calculate_brand_domain_citation_rate
    by_cases hE : responses.isEmpty
    · rw [if_pos hE]
      exact pyRound_zero 3
    · rw [if_neg hE, hzero]
      simpa using pyRound_zero 3

/-- Witness for C10: the brand site cited without a scheme. -/
theorem C10_schemeless_citation_never_matches_brand_witness :
    extract_domain "samsung.com/page" = "https://" ∧
    extract_domain ("https://" ++ "samsung.com") = "https://" ++ "samsung.com" ∧
    extract_domain "samsung.com/page" ≠ extract_domain ("https://" ++ "samsung.com") ∧
    calculate_brand_domain_citation_rate "samsung.com" [⟨"", [], ["samsung.com"]⟩] = 0 :=
  C10_schemeless_citation_never_matches_brand "samsung.com/page" "samsung.com"
    [⟨"", [], ["samsung.com"]⟩] (by decide) (by decide) (by decide) (by decide)
    (by decide) (by decide)

/-! ## C4 — the top-domain citation table -/

theorem insertLe_perm {α : Type} (le : α → α → Bool) (x : α) (s : List α) :
    List.Perm (insertLe le x s) (x :: s) := by
  induction s with
  | nil => exact List.Perm.refl _
  | cons y ys ih =>
    unfold insertLe
    by_cases h : le y x = true
    · rw [if_pos h]
      exact (List.Perm.cons y ih).trans (List.Perm.swap x y ys)
    · rw [if_neg h]

theorem stableSort_perm {α : Type} (le : α → α → Bool) (l : List α) :
    List.Perm (stableSort le l) l := by
  suffices hgen : ∀ (l acc : List α), List.Perm (l.foldl (fun s x => insertLe le x s) acc) (acc ++ l) by
    simpa using hgen l []
  intro l
  induction l with
  | nil => intro acc; simp
  | cons x xs ih =>
    intro acc
    rw [List.foldl_cons]
    have h1 : List.Perm (insertLe le x acc ++ xs) ((x :: acc) ++ xs) :=
      (insertLe_perm le x acc).append_right xs
    have h2 : List.Perm ((x :: acc) ++ xs) (acc ++ x :: xs) := by
      simpa using List.perm_middle.symm
    exact (ih _).trans (h1.trans h2)

theorem mem_insertLe {α : Type} (le : α → α → Bool) (x a : α) (s : List α) :
    a ∈ insertLe le x s ↔ a = x ∨ a ∈ s := by
  rw [(insertLe_perm le x s).mem_iff, List.mem_cons]

theorem insertLe_pairwise {α : Type} (le : α → α → Bool)
    (htot : ∀ a b, le a b = true ∨ le b a = true)
    (htrans : ∀ a b c, le a b = true → le b c = true → le a c = true)
    (x : α) (s : List α) (hs : List.Pairwise (fun a b => le a b = true) s) :
    List.Pairwise (fun a b => le a b = true) (insertLe le x s) := by
  induction s with
  | nil => simp [insertLe]
  | cons y ys ih =>
    rcases List.pairwise_cons.mp hs with ⟨hy, hys⟩
    unfold insertLe
    by_cases h : le y x = true
    · rw [if_pos h]
      rw [List.pairwise_cons]
      constructor
      · intro a ha
        rcases (mem_insertLe le x a ys).mp ha with rfl | ha
        · exact h
        · exact hy a ha
      · exact ih hys
    · rw [if_neg h]
      rw [List.pairwise_cons]
      constructor
      · intro a ha
        rcases List.mem_cons.mp ha with rfl | ha
        · rcases htot x a with hxa | hax
          · exact hxa
          · exact absurd hax h
        · rcases htot x y with hxy | hyx
          · exact htrans x y a hxy (hy a ha)
          · exact absurd hyx h
      · exact List.pairwise_cons.mpr ⟨hy, hys⟩

theorem stableSort_pairwise {α : Type} (le : α → α → Bool)
    (htot : ∀ a b, le a b = true ∨ le b a = true)
    (htrans : ∀ a b c, le a b = true → le b c = true → le a c = true)
    (l : List α) :
    List.Pairwise (fun a b => le a b = true) (stableSort le l) := by
  suffices hgen : ∀ (l acc : List α), List.Pairwise (fun a b => le a b = true) acc →
      List.Pairwise (fun a b => le a b = true) (l.foldl (fun s x => insertLe le x s) acc) by
    exact hgen l [] (List.Pairwise.nil)
  intro l
  induction l with
  | nil => intro acc h; simpa using h
  | cons x xs ih =>
    intro acc hacc
    rw [List.foldl_cons]
    exact ih _ (insertLe_pairwise le htot htrans x acc hacc)



theorem lookup_mapIncr (c : List (String × Nat)) (k k2 : String) :
    (c.map (fun p => if p.1 = k then (p.1, p.2 + 1) else p)).lookup k2 =
      if k2 = k then (c.lookup k2).map (· + 1) else c.lookup k2 := by
  induction c with
  | nil => by_cases h : k2 = k <;> simp [h]
  | cons p rest ih =>
    rw [List.map_cons]
    by_cases hpk : p.1 = k
    · rw [if_pos hpk]
      by_cases hk2p : k2 = p.1
      · have hk2k : k2 = k := hk2p.trans hpk
        simp [List.lookup, hk2p, hk2k, hpk]
      · have hne : (k2 == p.1) = false := by simpa using hk2p
        simp only [List.lookup, hne]
        exact ih
    · rw [if_neg hpk]
      by_cases hk2p : k2 = p.1
      · have hk2k : ¬ k2 = k := fun h => hpk (hk2p.symm.trans h)
        simp [List.lookup, hk2p, hk2k, hpk]
      · have hne : (k2 == p.1) = false := by simpa using hk2p
        simp only [List.lookup, hne]
        exact ih

theorem lookup_isSome_of_key (c : List (String × Nat)) (k : String)
    (h : c.any (fun p => p.1 = k) = true) : ∃ v, c.lookup k = some v := by
  induction c with
  | nil => simp at h
  | cons p rest ih =>
    rcases List.any_eq_true.mp h with ⟨q, hq, hqk⟩
    rcases List.mem_cons.mp hq with rfl | hq
    · refine ⟨q.2, ?_⟩
      have : (k == q.1) = true := by simpa using (of_decide_eq_true hqk).symm
      simp [List.lookup, this]
    · by_cases hkp : k = p.1
      · exact ⟨p.2, by simp [List.lookup, hkp]⟩
      · have hne : (k == p.1) = false := by simpa using hkp
        simp only [List.lookup, hne]
        exact ih (List.any_eq_true.mpr ⟨q, hq, hqk⟩)

theorem lookupCount_append_one (c : List (String × Nat)) (k k2 : String)
    (hk : c.any (fun p => p.1 = k) = false) :
    lookupCount (c ++ [(k, 1)]) k2 = lookupCount c k2 + (if k2 = k then 1 else 0) := by
  induction c with
  | nil =>
    by_cases h : k2 = k
    · simp [lookupCount, List.lookup, h]
    · have hne : (k2 == k) = false := by simpa using h
      simp [lookupCount, List.lookup, hne, h]
  | cons p rest ih =>
    have hk1 : ¬ p.1 = k := by
      intro he
      rw [List.any_cons] at hk
      simp [he] at hk
    have hkrest : rest.any (fun p => p.1 = k) = false := by
      rw [List.any_cons] at hk
      exact (Bool.or_eq_false_iff.mp hk).2
    by_cases hk2p : k2 = p.1
    · have hk2k : ¬ k2 = k := fun h => hk1 (hk2p.symm.trans h)
      have hbeq : (k2 == p.1) = true := by simpa using hk2p
      simp [lookupCount, List.lookup, hbeq, hk2k]
    · have hne : (k2 == p.1) = false := by simpa using hk2p
      simp only [List.cons_append, lookupCount, List.lookup, hne]
      exact ih hkrest

theorem lookupCount_counterAdd (c : List (String × Nat)) (k k2 : String) :
    lookupCount (counterAdd c k) k2 = lookupCount c k2 + (if k2 = k then 1 else 0) := by
  unfold counterAdd
  by_cases hmem : c.any (fun p => p.1 = k) = true
  · rw [if_pos hmem]
    unfold lookupCount
    rw [lookup_mapIncr]
    by_cases hk : k2 = k
    · rw [if_pos hk, if_pos hk]
      rcases lookup_isSome_of_key c k hmem with ⟨v, hv⟩
      rw [hk, hv]
      rfl
    · rw [if_neg hk, if_neg hk, Nat.add_zero]
  · rw [if_neg hmem]
    exact lookupCount_append_one c k k2 (Bool.eq_false_iff.mpr hmem)

theorem keys_counterAdd (c : List (String × Nat)) (k : String)
    (h : (c.map Prod.fst).Nodup) : ((counterAdd c k).map Prod.fst).Nodup := by
  unfold counterAdd
  by_cases hmem : c.any (fun p => p.1 = k) = true
  · rw [if_pos hmem]
    have hkeys : (c.map (fun p => if p.1 = k then (p.1, p.2 + 1) else p)).map Prod.fst =
        c.map Prod.fst := by
      rw [List.map_map]
      apply List.map_congr_left
      intro p _
      by_cases hp : p.1 = k <;> simp [hp]
    rw [hkeys]
    exact h
  · rw [if_neg hmem]
    rw [List.map_append]
    rw [List.nodup_append]
    refine ⟨h, by simp, ?_⟩
    intro a ha hb
    simp only [List.map_cons, List.map_nil, List.mem_singleton] at hb
    subst hb
    rcases List.mem_map.mp ha with ⟨p, hp, hpk⟩
    apply hmem
    exact List.any_eq_true.mpr ⟨p, hp, by simpa using hpk⟩

theorem lookupCount_counterUpdate (c : List (String × Nat)) (ks : List String) (k2 : String) :
    lookupCount (counterUpdate c ks) k2 = lookupCount c k2 + ks.count k2 := by
  induction ks generalizing c with
  | nil => simp [counterUpdate]
  | cons a ks ih =>
    unfold counterUpdate at ih ⊢
    rw [List.foldl_cons, ih, lookupCount_counterAdd, List.count_cons]
    have heq : (if (a == k2) = true then 1 else 0) = (if k2 = a then 1 else 0) := by
      by_cases h : k2 = a
      · simp [h]
      · have hb : (a == k2) = false := beq_eq_false_iff_ne.mpr (fun he => h he.symm)
        simp [h, hb]
    rw [heq]
    omega

theorem keys_counterUpdate (c : List (String × Nat)) (ks : List String)
    (h : (c.map Prod.fst).Nodup) : ((counterUpdate c ks).map Prod.fst).Nodup := by
  induction ks generalizing c with
  | nil => exact h
  | cons a ks ih =>
    unfold counterUpdate at ih ⊢
    rw [List.foldl_cons]
    exact ih _ (keys_counterAdd c a h)

theorem domainCounter_nodup_and_counts (responses : List Response) :
    ((domainCounter responses).map Prod.fst).Nodup ∧
    ∀ k, lookupCount (domainCounter responses) k = countDomain responses k := by
  suffices hgen : ∀ (rs : List Response) (c : List (String × Nat)),
      (c.map Prod.fst).Nodup →
      (((rs.foldl (fun c r => counterUpdate c (responseDomains r)) c).map Prod.fst).Nodup ∧
       ∀ k, lookupCount (rs.foldl (fun c r => counterUpdate c (responseDomains r)) c) k =
         lookupCount c k + countDomain rs k) by
    have h := hgen responses [] (by simp)
    unfold domainCounter
    refine ⟨h.1, fun k => ?_⟩
    rw [h.2 k]
    simp [lookupCount, List.lookup]
  intro rs
  induction rs with
  | nil =>
    intro c hc
    refine ⟨hc, fun k => ?_⟩
    simp [countDomain]
  | cons r rs ih =>
    intro c hc
    rw [List.foldl_cons]
    rcases ih (counterUpdate c (responseDomains r)) (keys_counterUpdate _ _ hc) with ⟨h1, h2⟩
    refine ⟨h1, fun k => ?_⟩
    rw [h2 k, lookupCount_counterUpdate]
    have hcd : countDomain (r :: rs) k =
        countDomain rs k + (if (responseDomains r).contains k = true then 1 else 0) := by
      unfold countDomain
      rw [List.countP_cons]
    have hcnt : (responseDomains r).count k =
        (if (responseDomains r).contains k = true then 1 else 0) := by
      have hnd : (responseDomains r).Nodup := by
        unfold responseDomains
        exact List.nodup_dedup _
      by_cases hm : k ∈ responseDomains r
      · rw [List.count_eq_one_of_mem hnd hm]
        have : (responseDomains r).contains k = true := List.elem_iff.mpr hm
        rw [this]
        rfl
      · rw [List.count_eq_zero_of_not_mem hm]
        have : (responseDomains r).contains k = false := by
          rw [← Bool.not_eq_true]
          intro hcon
          exact hm (List.elem_iff.mp hcon)
        rw [this]
        rfl
    rw [hcd, hcnt]
    omega

theorem lookup_of_mem_nodup_nat (c : List (String × Nat)) (p : String × Nat)
    (hp : p ∈ c) (hnd : (c.map Prod.fst).Nodup) : c.lookup p.1 = some p.2 := by
  induction c with
  | nil => cases hp
  | cons q rest ih =>
    rw [List.map_cons] at hnd
    rcases List.mem_cons.mp hp with rfl | hp
    · simp [List.lookup]
    · have hne : ¬ p.1 = q.1 := by
        intro he
        apply (List.nodup_cons.mp hnd).1
        rw [← he]
        simpa using List.mem_map_of_mem Prod.fst hp
      have hbeq : (p.1 == q.1) = false := by simpa using hne
      simp only [List.lookup, hbeq]
      exact ih hp (List.nodup_cons.mp hnd).2

theorem domainCounter_entry_spec (responses : List Response) (p : String × Nat)
    (hp : p ∈ domainCounter responses) : p.2 = countDomain responses p.1 := by
  rcases domainCounter_nodup_and_counts responses with ⟨hnd, hcounts⟩
  have := hcounts p.1
  rw [← this]
  unfold lookupCount
  rw [lookup_of_mem_nodup_nat _ p hp hnd]
  rfl

theorem citeEntryLE_total (a b : CiteEntry) : citeEntryLE a b = true ∨ citeEntryLE b a = true := by
  unfold citeEntryLE
  by_cases h : a.pct = b.pct
  · rw [if_pos h, if_pos h.symm]
    rcases Nat.le_total b.cnt a.cnt with hc | hc
    · left; simpa using hc
    · right; simpa using hc
  · rw [if_neg h, if_neg (fun he => h he.symm)]
    rcases lt_or_gt_of_ne h with hlt | hgt
    · right; simpa using hlt
    · left; simpa using hgt

theorem citeEntryLE_trans (a b c : CiteEntry) (hab : citeEntryLE a b = true)
    (hbc : citeEntryLE b c = true) : citeEntryLE a c = true := by
  unfold citeEntryLE at *
  by_cases h1 : a.pct = b.pct <;> by_cases h2 : b.pct = c.pct
  · rw [if_pos h1] at hab
    rw [if_pos h2] at hbc
    rw [if_pos (h1.trans h2)]
    simp only [decide_eq_true_eq] at *
    omega
  · rw [if_neg (fun he => h2 (h1.symm.trans he))]
    rw [if_neg h2] at hbc
    rw [← h1] at hbc
    exact hbc
  · rw [if_neg (fun he => h1 (he.trans h2.symm))]
    rw [if_neg h1] at hab
    rw [h2] at hab
    exact hab
  · rw [if_neg h1] at hab
    rw [if_neg h2] at hbc
    simp only [decide_eq_true_eq] at *
    by_cases h3 : a.pct = c.pct
    · exfalso
      rw [h3] at hab
      exact absurd (hab.trans hbc) (lt_irrefl _)
    · rw [if_neg h3]
      simp only [decide_eq_true_eq]
      exact hbc.trans hab

theorem pct_le_of_citeEntryLE (a b : CiteEntry) (h : citeEntryLE a b = true) :
    b.pct ≤ a.pct := by
  unfold citeEntryLE at h
  by_cases he : a.pct = b.pct
  · exact le_of_eq he.symm
  · rw [if_neg he] at h
    simp only [decide_eq_true_eq] at h
    exact le_of_lt h


/-- C4 as amended: the top-domain table has at most 5 entries, is sorted by
descending percentage, repeats no normalized-domain string, and each entry's
percentage is the per-record-deduplicated share of records citing that
domain — but the normalization keeps the URL scheme (adding `https` only
when absent), so the same host under `http://` and `https://` counts as two
different domains rather than one. -/
theorem C4_top_domains_sorted_bounded_distinct (responses : List Response) :
    (calculate_citations_list responses).length ≤ 5 ∧
    List.Pairwise (fun a b => b.percentage ≤ a.percentage) (calculate_citations_list responses) ∧
    ((calculate_citations_list responses).map (fun c => c.url)).Nodup ∧
    ∀ e ∈ calculate_citations_list responses,
      e.percentage = pyRound 1 ((countDomain responses e.url : Rat) / (responses.length : Rat) * 100) := by
  have hperm : List.Perm (stableSort citeEntryLE (citeEntries responses)) (citeEntries responses) :=
    stableSort_perm _ _
  have hpair : List.Pairwise (fun a b => citeEntryLE a b = true)
      (stableSort citeEntryLE (citeEntries responses)) :=
    stableSort_pairwise _ citeEntryLE_total citeEntryLE_trans _
  refine ⟨?_, ?_, ?_, ?_⟩
  · unfold calculate_citations_list
    rw [List.length_map]
    simp [List.length_take]
  · unfold calculate_citations_list
    rw [List.pairwise_map]
    apply List.Pairwise.sublist (List.take_sublist _ _)
    exact hpair.imp (fun hab => pct_le_of_citeEntryLE _ _ hab)
  · unfold calculate_citations_list
    rw [List.map_map]
    have hnd : ((citeEntries responses).map (fun e => e.url)).Nodup := by
      unfold citeEntries
      rw [List.map_map]
      have heq : ((domainCounter responses).map
          ((fun e : CiteEntry => e.url) ∘ (fun p => CiteEntry.mk p.1 p.2
            (pyRound 1 ((p.2 : Rat) / (responses.length : Rat) * 100))))) =
          (domainCounter responses).map Prod.fst := by
        apply List.map_congr_left
        intro p _
        rfl
      rw [heq]
      exact (domainCounter_nodup_and_counts responses).1
    have hnd2 : ((stableSort citeEntryLE (citeEntries responses)).map
        (fun e => e.url)).Nodup :=
      hnd.perm (hperm.map _).symm
    exact ((List.take_sublist 5 _).map _).nodup hnd2
  · intro e he
    unfold calculate_citations_list at he
    rcases List.mem_map.mp he with ⟨x, hx, rfl⟩
    have hx2 : x ∈ stableSort citeEntryLE (citeEntries responses) :=
      (List.take_sublist 5 _).subset hx
    have hx3 : x ∈ citeEntries responses := hperm.subset hx2
    unfold citeEntries at hx3
    rcases List.mem_map.mp hx3 with ⟨p, hp, rfl⟩
    have hcnt := domainCounter_entry_spec responses p hp
    show pyRound 1 ((p.2 : Rat) / (responses.length : Rat) * 100) = _
    rw [hcnt]

/-- C4 counterexample: one record citing `http://example.com/a` and another
citing `https://example.com/b` produce two separate table entries at 50%
each for the same registrable host `example.com` — the code does not count
citations of the same host under different schemes as the same domain, and
the same (scheme-stripped) domain appears twice. -/
theorem C4_counterexample_same_host_two_schemes :
    calculate_citations_list citeExample =
      [⟨"http://example.com", 50⟩, ⟨"https://example.com", 50⟩] := by
  have hdc : domainCounter citeExample =
      [("http://example.com", 1), ("https://example.com", 1)] := by decide
  have hval : pyRound 1 (((1 : Nat) : Rat) / ((citeExample.length : Nat) : Rat) * 100) = 50 := by
    have h2 : ((citeExample.length : Nat) : Rat) = 2 := by norm_num [citeExample]
    rw [h2]
    have h3 : ((1 : Nat) : Rat) / 2 * 100 = 50 := by norm_num
    rw [h3, pyRound_eq_of_lt_half (n := 500) (by norm_num) (by norm_num) (by norm_num)]
    norm_num
  have hent : citeEntries citeExample =
      [⟨"http://example.com", 1, 50⟩, ⟨"https://example.com", 1, 50⟩] := by
    unfold citeEntries
    rw [hdc]
    simp only [List.map_cons, List.map_nil]
    rw [hval]
  unfold calculate_citations_list
  rw [hent]
  have hle : citeEntryLE ⟨"http://example.com", 1, 50⟩ ⟨"https://example.com", 1, 50⟩ = true := by
    unfold citeEntryLE
    norm_num
  have hsorted : stableSort citeEntryLE
      [⟨"http://example.com", 1, 50⟩, ⟨"https://example.com", 1, 50⟩] =
      [(⟨"http://example.com", 1, 50⟩ : CiteEntry), ⟨"https://example.com", 1, 50⟩] := by
    unfold stableSort
    simp only [List.foldl_cons, List.foldl_nil]
    show insertLe citeEntryLE _ [⟨"http://example.com", 1, 50⟩] = _
    unfold insertLe
    rw [if_pos hle]
    rfl
  rw [hsorted]
  rfl

/-- Witness for C4: the percentage conjunct applied at a one-record input. -/
theorem C4_top_domains_sorted_bounded_distinct_witness :
    (⟨"https://a.com", (100 : Rat)⟩ : Citation).percentage =
      pyRound 1 ((countDomain [⟨"", [], ["https://a.com"]⟩] "https://a.com" : Rat) /
        (([⟨"", [], ["https://a.com"]⟩] : List Response).length : Rat) * 100) :=
  (C4_top_domains_sorted_bounded_distinct [⟨"", [], ["https://a.com"]⟩]).2.2.2
    ⟨"https://a.com", 100⟩ (by
      have hdc : domainCounter [⟨"", [], ["https://a.com"]⟩] = [("https://a.com", 1)] := by
        decide
      have hval : pyRound 1 (((1 : Nat) : Rat) /
          ((([⟨"", [], ["https://a.com"]⟩] : List Response).length : Nat) : Rat) * 100) = 100 := by
        have h1 : ((([⟨"", [], ["https://a.com"]⟩] : List Response).length : Nat) : Rat) = 1 := by
          norm_num
        rw [h1]
        have h3 : ((1 : Nat) : Rat) / 1 * 100 = 100 := by norm_num
        rw [h3, pyRound_eq_of_lt_half (n := 1000) (by norm_num) (by norm_num) (by norm_num)]
        norm_num
      have hent : citeEntries [⟨"", [], ["https://a.com"]⟩] = [⟨"https://a.com", 1, 100⟩] := by
        unfold citeEntries
        rw [hdc]
        simp only [List.map_cons, List.map_nil]
        rw [hval]
      have hcalc : calculate_citations_list [⟨"", [], ["https://a.com"]⟩] =
          [⟨"https://a.com", 100⟩] := by
        unfold calculate_citations_list
        rw [hent]
        rfl
      rw [hcalc]
      exact List.mem_singleton.mpr rfl)


end Brank

